import Mathlib

/-
Verification of the schema-comparison engine of GDBReportingTools
(src/schema_compare.py) against its natural-language specification.

The Python code is shallowly embedded:
  * XML element trees (lxml) become the inductive `XTree`;
  * Python scalar values reaching the comparison logic (element texts,
    domain codes) become `PyV` (`None`, `int`, `str`);
  * Python dicts become association lists in insertion order, with
    dict equality (`==`) modelled order-insensitively as in Python, and
    item assignment updating in place / appending, as `dinsert` does;
  * runtime errors (KeyError, NameError/UnboundLocalError, IndexError,
    AttributeError, TypeError, ValueError) become `Except PyErr`;
  * each `compare_*` function of the source is modelled at the level of
    the normalized collections it first computes: the source computes
    `xxx_list_base`/`xxx_list_test` from the two documents and from then
    on only uses the two lists, so the diff logic is a function of the
    two collections.  The tree-walking parser pieces that the claims
    depend on (`get_domain_properties`, the `Field` branch of
    `get_dataset_properties`) are modelled over `XTree`.
-/

set_option autoImplicit false

namespace GDB

/-- Python scalar values that occur in the comparison logic: `None`,
integers (the spec's coded-value scenario uses integer codes) and
strings (XML element texts). -/
inductive PyV where
  | none
  | i (n : Int)
  | s (v : String)
deriving DecidableEq, Repr

/-- `elem.text` of lxml as a `PyV` (`None` for an empty element). -/
def ofText : Option String → PyV
  | Option.none => .none
  | Option.some t => .s t

/-- Python `str(x)` for the values above (`str(None) = "None"`). -/
def pyStr : PyV → String
  | .none => "None"
  | .i n => toString n
  | .s v => v

/-- Python `repr(x)` for the values above (strings are quoted). -/
def pyRepr : PyV → String
  | .none => "None"
  | .i n => toString n
  | .s v => "'" ++ v ++ "'"

/-- Boolean equality of `PyV`, mirroring Python `==` on
`None`/`int`/`str` (values of distinct types compare unequal). -/
def pveq (a b : PyV) : Bool := decide (a = b)

/-- Boolean equality of strings (Python `==` on `str`). -/
def streq (a b : String) : Bool := decide (a = b)

/-- The runtime errors of the Python source that the model makes
explicit. -/
inductive PyErr where
  | keyErr
  | nameErr (v : String)
  | idxErr
  | attrErr
  | typeErr
  | valErr
deriving DecidableEq, Repr

/-! ### Association lists as Python dicts

A Python dict is an association list in insertion order with unique
keys; the model's constructors only build unique-key lists, and the
operations below reproduce dict semantics (`d[k]`, `d[k] = v`,
`k in d`, `del d[k]`, `==`). -/

section Dict

variable {κ ν : Type}

/-- `d[k]` as an `Option` (first entry with an equal key). -/
def alookup (keq : κ → κ → Bool) (k : κ) : List (κ × ν) → Option ν
  | [] => Option.none
  | p :: rest => if keq p.1 k then Option.some p.2 else alookup keq k rest

/-- `d[k] = v`: update the first entry with an equal key in place,
else append a new entry (Python dict insertion-order semantics). -/
def dinsert (keq : κ → κ → Bool) (k : κ) (v : ν) : List (κ × ν) → List (κ × ν)
  | [] => [(k, v)]
  | p :: rest => if keq p.1 k then (p.1, v) :: rest else p :: dinsert keq k v rest

/-- `del d[k]` (`dict.__delitem__`): drop the first entry with an equal
key; `KeyError` when no key matches. -/
def ddelete (keq : κ → κ → Bool) (k : κ) : List (κ × ν) → Except PyErr (List (κ × ν))
  | [] => .error .keyErr
  | p :: rest =>
    if keq p.1 k then .ok rest
    else match ddelete keq k rest with
      | .error e => .error e
      | .ok rest' => .ok (p :: rest')

/-- Python dict equality `d1 == d2`: same keys and equal values,
regardless of insertion order. -/
def dictEqBy (keq : κ → κ → Bool) (veq : ν → ν → Bool) (d1 d2 : List (κ × ν)) : Bool :=
  d1.all (fun p =>
    match alookup keq p.1 d1, alookup keq p.1 d2 with
    | Option.some v1, Option.some v2 => veq v1 v2
    | Option.none, Option.none => true
    | _, _ => false) &&
  d2.all (fun p =>
    match alookup keq p.1 d1, alookup keq p.1 d2 with
    | Option.some v1, Option.some v2 => veq v1 v2
    | Option.none, Option.none => true
    | _, _ => false)

end Dict

/-- Python list equality `l1 == l2`: same length, elementwise `==`. -/
def listEqBy {α : Type} (eq : α → α → Bool) : List α → List α → Bool
  | [], [] => true
  | a :: as, b :: bs => eq a b && listEqBy eq as bs
  | _, _ => false

/-- Python `list.remove(x)`: delete the first element `== x`
(`ValueError` when none is). -/
def pyErase {α : Type} (eq : α → α → Bool) (x : α) : List α → Except PyErr (List α)
  | [] => .error .valErr
  | a :: as =>
    if eq a x then .ok as
    else match pyErase eq x as with
      | .error e => .error e
      | .ok as' => .ok (a :: as')

/-- `mapM` over `Except` with clean structural equations. -/
def emapM {α β : Type} (f : α → Except PyErr β) : List α → Except PyErr (List β)
  | [] => .ok []
  | a :: as =>
    match f a with
    | .error e => .error e
    | .ok b =>
      match emapM f as with
      | .error e => .error e
      | .ok bs => .ok (b :: bs)

/-- `foldM` over `Except` with clean structural equations. -/
def efoldl {σ α : Type} (f : σ → α → Except PyErr σ) (s : σ) : List α → Except PyErr σ
  | [] => .ok s
  | a :: as =>
    match f s a with
    | .error e => .error e
    | .ok s' => efoldl f s' as

/-- Insertion sort by a boolean `≤`; stable, so it agrees with Python's
(stable) `sorted`/`list.sort` for any total preorder. -/
def isortBy {α : Type} (le : α → α → Bool) : List α → List α
  | [] => []
  | a :: as => insSorted le a (isortBy le as)
where
  insSorted (le : α → α → Bool) (a : α) : List α → List α
    | [] => [a]
    | b :: bs => if le a b then a :: b :: bs else b :: insSorted le a bs

/-- A total boolean order on `PyV` used where Python sorts such values;
it restricts to Python's `<` on the homogeneous-string keys that the
parser actually produces (mixed-type keys would raise `TypeError` in
Python; the model keeps sorting total instead). -/
def pvle (a b : PyV) : Bool :=
  match a, b with
  | .none, _ => true
  | .i _, .none => false
  | .i n, .i m => decide (n ≤ m)
  | .i _, .s _ => true
  | .s v, .s w => decide (v ≤ w)
  | .s _, _ => false

/-! ### Domains (`get_domain_properties` / `compare_domains`)

A normalized domain is the Python dict built by `get_domain_properties`:
scalar text properties plus an optional `CodedValues` sub-dict mapping
description to code, all in insertion order. -/

/-- A coded-values dict: description → code. -/
abbrev CVD := List (PyV × PyV)

/-- A value of a normalized-domain dict: a scalar (`DomainName`,
`FieldType`, `MergePolicy`, `SplitPolicy`, `Range`) or the
`CodedValues` dict. -/
inductive DVal where
  | v (x : PyV)
  | cv (d : CVD)
deriving DecidableEq, Repr

/-- A normalized domain record (a Python dict, insertion ordered). -/
abbrev DomainRec := List (String × DVal)

/-- Python `==` on coded-values dicts. -/
def cvEq (d1 d2 : CVD) : Bool := dictEqBy pveq pveq d1 d2

/-- Python `==` on values of a domain dict (a dict never equals a
non-dict). -/
def dvEq : DVal → DVal → Bool
  | .v a, .v b => pveq a b
  | .cv a, .cv b => cvEq a b
  | _, _ => false

/-- Python `==` on domain records. -/
def domEq (d1 d2 : DomainRec) : Bool := dictEqBy streq dvEq d1 d2

/-- Python `==` on lists of domain records. -/
def domListEq : List DomainRec → List DomainRec → Bool := listEqBy domEq

/-- `swap_key_value` of the source: swap keys and values of a dict. -/
def swap_key_value (d : CVD) : CVD := d.map (fun p => (p.2, p.1))

/-- `dict(set(d1.items()) - set(d2.items()))`: the entries of `d1` not
in `d2`.  Python's `set` iteration order is unspecified; the model
keeps `d1`'s order (a deterministic stand-in, irrelevant to equality
of the resulting dict). -/
def cvSetDiff (d1 d2 : CVD) : CVD :=
  d1.filter (fun p => !(d2.any (fun q => decide (q = p))))

/-- Python `str`/`repr` of a dict of `PyV`s, e.g. `{2: 'Inactive'}`. -/
def pyReprCVD (d : CVD) : String :=
  "\x7b" ++ String.intercalate ", " (d.map (fun p => pyRepr p.1 ++ ": " ++ pyRepr p.2)) ++ "\x7d"

/-- One `(description, baseValue, testValue)` row of a domain mismatch. -/
abbrev DomTriple := String × DVal × DVal

/-- `d[k]` on a domain record (`KeyError` when absent). -/
def dgetD (d : DomainRec) (k : String) : Except PyErr DVal :=
  match alookup streq k d with
  | Option.none => .error .keyErr
  | Option.some v => .ok v

/-- The `CodedValues` branch of `compare_domains` (source lines
122–165): set-difference of the two coded-value dicts, classification
of the difference, swapping of keys and values, and the append-or-create
update of `domain_diff`.  Note the source's branch structure: the
`"additional and missing"` label is guarded by `test_diff == ""` and its
body calls `swap_key_value` on that empty string (an `AttributeError`),
and when both one-sided differences are non-empty the `"missing"` branch
runs with the test-side dict left unswapped. -/
def domainCVBranch (domainName : DVal) (bcv tcv : CVD)
    (dd : List (DVal × List DomTriple)) : Except PyErr (List (DVal × List DomTriple)) :=
  let bd := cvSetDiff bcv tcv
  let td := cvSetDiff tcv bcv
  -- `base_diff`/`test_diff` are the dict when non-empty, else the string "";
  -- `Option.none` stands for the "" case.
  let base_diff : Option CVD := if bd.isEmpty then Option.none else Option.some bd
  let test_diff : Option CVD := if td.isEmpty then Option.none else Option.some td
  let result : Except PyErr (String × String × String) :=
    match base_diff, test_diff with
    | Option.some _, Option.none =>
      -- adj = "additional and missing"; swap_key_value(test_diff) with
      -- test_diff == "" raises AttributeError ("".items() does not exist)
      .error .attrErr
    | Option.some b, Option.some t =>
      -- elif base_diff != "": swap only the base side
      .ok ("missing", pyReprCVD (swap_key_value b), pyReprCVD t)
    | Option.none, Option.some t =>
      .ok ("additional", "", pyReprCVD (swap_key_value t))
    | Option.none, Option.none =>
      -- both sides empty: `adj` is never assigned; the format call
      -- raises UnboundLocalError
      .error (.nameErr "adj")
  match result with
  | .error e => .error e
  | .ok (adj, sb, st) =>
    let triple : DomTriple := ("Domain has " ++ adj ++ " CodedValues", .v (.s sb), .v (.s st))
    match alookup dvEq domainName dd with
    | Option.some ts => .ok (dinsert dvEq domainName (ts ++ [triple]) dd)
    | Option.none => .ok (dinsert dvEq domainName [triple] dd)

/-- `compare_domains` (source lines 84–166), at the level of the two
normalized domain lists it computes first.  Returns
`(domain_miss, domain_diff, domain_add)`. -/
def compare_domains (base test : List DomainRec) :
    Except PyErr (List DomainRec × List (DVal × List DomTriple) × List DomainRec) :=
  if domListEq base test then .ok ([], [], [])
  else
    -- domain_diff_test = [i for i in test if i not in base]
    let diffTest := test.filter (fun i => !(base.any (fun b => domEq b i)))
    -- domain_names_test / domain_names_base ([i["DomainName"] for i in ...])
    match emapM (fun i => dgetD i "DomainName") test with
    | .error e => .error e
    | .ok namesTest =>
      match emapM (fun i => dgetD i "DomainName") base with
      | .error e => .error e
      | .ok namesBase =>
          let miss := (base.zip namesBase).filter
            (fun p => !(namesTest.any (fun n => dvEq p.2 n))) |>.map (·.1)
          let add := (test.zip namesTest).filter
            (fun p => !(namesBase.any (fun n => dvEq p.2 n))) |>.map (·.1)
          -- for domain in domain_add: domain_diff_test.remove(domain)
          match efoldl (fun acc x => pyErase domEq x acc) diffTest add with
          | .error e => .error e
          | .ok dt =>
            let step := fun (dd : List (DVal × List DomTriple)) (domain : DomainRec) =>
              match dgetD domain "DomainName" with
              | .error e => .error e
              | .ok domainName =>
                -- domain_base = [d for d in base if d["DomainName"] == domain_name][0]
                match emapM (fun d => dgetD d "DomainName") base with
                | .error e => .error e
                | .ok nb =>
                  match ((base.zip nb).filter (fun p => dvEq p.2 domainName)).map (·.1) with
                  | [] => .error .idxErr
                  | domainBase :: _ =>
                    efoldl (fun dd kv =>
                      let (key, val) := kv
                      if key ≠ "CodedValues" then
                        match dgetD domainBase key with
                        | .error e => .error e
                        | .ok bv =>
                          if !dvEq val bv then
                            -- plain assignment: overwrites any earlier triples
                            .ok (dinsert dvEq domainName
                              [("Domain has mismatch " ++ key ++ " property", bv, val)] dd)
                          else .ok dd
                      else
                        match dgetD domainBase key with
                        | .error e => .error e
                        | .ok bv =>
                          if !dvEq val bv then
                            match bv, val with
                            | .cv bcv, .cv tcv => domainCVBranch domainName bcv tcv dd
                            | _, _ => .error .attrErr -- .items() on a non-dict
                          else .ok dd) dd domain
            match efoldl step [] dt with
            | .error e => .error e
            | .ok dd => .ok (miss, dd, add)

/-! ### Relationship classes (`compare_relationship_classes`)

A normalized relationship class is a flat dict of scalar text
properties (`get_rc_properties` stores only `rc_prop.text`). -/

/-- A normalized relationship-class record. -/
abbrev RCRec := List (String × PyV)

/-- Python `==` on relationship-class records. -/
def rcEq (a b : RCRec) : Bool := dictEqBy streq pveq a b

/-- Python `==` on lists of relationship-class records. -/
def rcListEq : List RCRec → List RCRec → Bool := listEqBy rcEq

/-- One `(description, baseValue, testValue)` row of a relationship
class (or attribute rule) mismatch. -/
abbrev RCTriple := String × PyV × PyV

/-- `d[k]` on a flat `String → PyV` dict (`KeyError` when absent). -/
def dgetS (d : List (String × PyV)) (k : String) : Except PyErr PyV :=
  match alookup streq k d with
  | Option.none => .error .keyErr
  | Option.some v => .ok v

/-- `compare_relationship_classes` (source lines 478–510) at the level
of the two normalized lists it computes first.  `nm` is the `name`
argument ("Relationship Class").  Note the mismatch branch: it always
assigns `rc_diff[rc_name] = [triple]` (no append), so a later differing
property overwrites the triple of an earlier one. -/
def compare_relationship_classes (base test : List RCRec) (nm : String) :
    Except PyErr (List RCRec × List (PyV × List RCTriple) × List RCRec) :=
  if rcListEq base test then .ok ([], [], [])
  else
    let diffTest := test.filter (fun i => !(base.any (fun b => rcEq b i)))
    match emapM (fun i => dgetS i "Name") test with
    | .error e => .error e
    | .ok namesTest =>
      match emapM (fun i => dgetS i "Name") base with
      | .error e => .error e
      | .ok namesBase =>
        let miss := (base.zip namesBase).filter
          (fun p => !(namesTest.any (fun n => pveq p.2 n))) |>.map (·.1)
        let add := (test.zip namesTest).filter
          (fun p => !(namesBase.any (fun n => pveq p.2 n))) |>.map (·.1)
        match efoldl (fun acc x => pyErase rcEq x acc) diffTest add with
        | .error e => .error e
        | .ok dt =>
          let step := fun (dd : List (PyV × List RCTriple)) (rc : RCRec) =>
            match dgetS rc "Name" with
            | .error e => .error e
            | .ok rcName =>
              match emapM (fun r => dgetS r "Name") base with
              | .error e => .error e
              | .ok nb =>
                match ((base.zip nb).filter (fun p => pveq p.2 rcName)).map (·.1) with
                | [] => .error .idxErr
                | rcBase :: _ =>
                  efoldl (fun dd kv =>
                    let (key, val) := kv
                    match dgetS rcBase key with
                    | .error e => .error e
                    | .ok bv =>
                      if !pveq val bv then
                        .ok (dinsert pveq rcName
                          [(nm ++ " has mismatch " ++ key ++ " property", bv, val)] dd)
                      else .ok dd) dd rc
          match efoldl step [] dt with
          | .error e => .error e
          | .ok dd => .ok (miss, dd, add)

/-! ### Attribute rules (`compare_attr_rules`)

A normalized attribute-rule collection is a dict keyed by
`"<dataset name>: <rule name>"`, each value a dict of scalar rule
properties. -/

/-- A normalized attribute-rule record. -/
abbrev ARRec := List (String × PyV)

/-- Python `==` on attribute-rule records. -/
def arEq (a b : ARRec) : Bool := dictEqBy streq pveq a b

/-- Python `==` on attribute-rule collections (dicts of rule records). -/
def arCollEq (a b : List (String × ARRec)) : Bool := dictEqBy streq arEq a b

/-- Python string `≤` (lexicographic on code points), for `sorted`. -/
def strle (a b : String) : Bool := decide (a ≤ b)

/-- `"".join(key.split(":")[1:]).strip()`: the rule-name part of a
composite `"<dataset>: <rule>"` key. -/
def ruleNameOfKey (k : String) : String :=
  (String.intercalate "" ((k.splitOn ":").drop 1)).trim

/-- `compare_attr_rules` (source lines 829–879) at the level of the two
normalized collections it computes first.  The source assigns
`attr_miss`/`attr_add` only under `if base_keys != test_keys:`, so when
the two key lists are equal but some rule's properties differ the final
`return (attr_miss, attr_diff, attr_add)` raises `UnboundLocalError`
(modelled as `.error (.nameErr "attr_miss")`). -/
def compare_attr_rules (base test : List (String × ARRec)) :
    Except PyErr (List String × List (String × List RCTriple) × List String) :=
  if arCollEq base test then .ok ([], [], [])
  else
    let baseKeys := isortBy strle (base.map (·.1))
    let testKeys := isortBy strle (test.map (·.1))
    -- list(set(base_keys) - set(test_keys)) etc.; Python's set order is
    -- unspecified, the model keeps the sorted order (deterministic stand-in)
    let missAdd : Option (List String × List String) :=
      if baseKeys = testKeys then Option.none
      else Option.some
        (baseKeys.filter (fun k => !(testKeys.any (streq k))),
         testKeys.filter (fun k => !(baseKeys.any (streq k))))
    let diffItems := baseKeys.filter (fun k => testKeys.any (streq k))
    let step := fun (dd : List (String × List RCTriple)) (i : String) =>
      match dgetAR base i, dgetAR test i with
      | .error e, _ => .error e
      | _, .error e => .error e
      | .ok propBase, .ok propTest =>
        if !arEq propBase propTest then
          efoldl (fun dd kv =>
            let (key, _val) := kv
            match dgetS propBase key, dgetS propTest key with
            | .error e, _ => .error e
            | _, .error e => .error e
            | .ok bv, .ok tv =>
              if !pveq bv tv then
                -- the source computes `domain_name` from `i` in the create
                -- branch and reuses the binding in the append branch; both
                -- branches of one `i` see the same value, so the label is
                -- `ruleNameOfKey i` for every triple of `i`
                let triple : RCTriple :=
                  (ruleNameOfKey i ++ " has mismatch " ++ key ++ " property", bv, tv)
                match alookup streq i dd with
                | Option.some ts => .ok (dinsert streq i (ts ++ [triple]) dd)
                | Option.none => .ok (dinsert streq i [triple] dd)
              else .ok dd) dd propBase
        else .ok dd
    match efoldl step [] diffItems with
    | .error e => .error e
    | .ok dd =>
      match missAdd with
      | Option.none => .error (.nameErr "attr_miss")
      | Option.some (m, a) => .ok (m, dd, a)
where
  /-- `coll[key]` on an attribute-rule collection. -/
  dgetAR (coll : List (String × ARRec)) (k : String) : Except PyErr ARRec :=
    match alookup streq k coll with
    | Option.none => .error .keyErr
    | Option.some v => .ok v

/-! ### Feature classes and tables (`compare_datasets`)

A normalized dataset record is the Python dict built by
`get_dataset_properties`: scalar text properties, a `Fields` list and a
`Subtypes` list of flat dicts, and the one-entry `SubtypeInfo` dict
`{subtype_field_name: default_subtype_code}`.  `compare_datasets`
mutates the test collection in place (`val.remove(...)` on the `Fields`
and `Subtypes` lists of records it is comparing); the model threads
that state explicitly and `compare_datasets_core` also returns the
post-run test collection. -/

/-- A field (or subtype) record: a flat dict of scalar values. -/
abbrev Fld := List (String × PyV)

/-- A value of a normalized dataset dict. -/
inductive DsVal where
  | v (x : PyV)
  | lst (l : List Fld)
  | sinfo (m : List (PyV × PyV))
deriving DecidableEq, Repr

/-- A normalized dataset record (a Python dict, insertion ordered). -/
abbrev DSRec := List (String × DsVal)

/-- Python `==` on field records. -/
def fldEq (a b : Fld) : Bool := dictEqBy streq pveq a b

/-- Python `==` on lists of field records. -/
def fldListEq : List Fld → List Fld → Bool := listEqBy fldEq

/-- Python `==` on the `SubtypeInfo` dict. -/
def sinfoEq (a b : List (PyV × PyV)) : Bool := dictEqBy pveq pveq a b

/-- Python `==` on values of a dataset dict (a list never equals a
dict or a scalar). -/
def dsvEq : DsVal → DsVal → Bool
  | .v a, .v b => pveq a b
  | .lst a, .lst b => fldListEq a b
  | .sinfo a, .sinfo b => sinfoEq a b
  | _, _ => false

/-- Python `==` on dataset records. -/
def dsEq (a b : DSRec) : Bool := dictEqBy streq dsvEq a b

/-- Python `==` on lists of dataset records. -/
def dsListEq : List DSRec → List DSRec → Bool := listEqBy dsEq

/-- One `(description, baseValue, testValue)` row of a dataset
mismatch. -/
abbrev DsTriple := String × DsVal × DsVal

/-- A value of the `ds_diff` dict.  The source usually assigns a
list of triples, but two create-branches (`SubtypeInfo` mismatch,
`Additional subtype`) assign a bare tuple; `.append` on such a value
raises `AttributeError`. -/
inductive DiffVal where
  | l (ts : List DsTriple)
  | t (tr : DsTriple)
deriving DecidableEq, Repr

/-- The `ds_diff` dict, keyed by the dataset's `Name` value. -/
abbrev DsDiff := List (DsVal × DiffVal)

/-- The triples held by a `ds_diff` value. -/
def trsOf : DiffVal → List DsTriple
  | .l ts => ts
  | .t tr => [tr]

/-- `ds_diff[name].append(t)` when `name` is present, else
`ds_diff[name] = [t]` (`createAsList = true`) or `ds_diff[name] = t`
(`createAsList = false`, the source's bare-tuple create branches). -/
def diffAddOrCreate (dd : DsDiff) (k : DsVal) (tr : DsTriple) (createAsList : Bool) :
    Except PyErr DsDiff :=
  match alookup dsvEq k dd with
  | Option.some (.l ts) => .ok (dinsert dsvEq k (.l (ts ++ [tr])) dd)
  | Option.some (.t _) => .error .attrErr
  | Option.none => .ok (dinsert dsvEq k (if createAsList then .l [tr] else .t tr) dd)

/-- `d[k]` on a dataset record (`KeyError` when absent). -/
def dgetDS (d : DSRec) (k : String) : Except PyErr DsVal :=
  match alookup streq k d with
  | Option.none => .error .keyErr
  | Option.some v => .ok v

/-- `list.remove(x)` with a heterogeneous comparison (used for the
indexed test collection). -/
def pyEraseBy {α β : Type} (eq : α → β → Bool) (x : β) : List α → Except PyErr (List α)
  | [] => .error .valErr
  | a :: as =>
    if eq a x then .ok as
    else match pyEraseBy eq x as with
      | .error e => .error e
      | .ok as' => .ok (a :: as')

/-- The triple emitted for a differing common property of a field
(source lines 404–422): both values are passed through `str`. -/
def mkFldTriple (fn : PyV) (bk : String) (bv tv : PyV) : DsTriple :=
  (pyStr fn ++ " field has different values for " ++ bk, .v (.s (pyStr bv)), .v (.s (pyStr tv)))

/-- Innermost loop of the common-field comparison:
`for test_key, test_val in fld_prop.items()` against one base entry. -/
def pwInner (dsName : DsVal) (fn : PyV) (fp : Fld) (bkv : String × PyV) (dd : DsDiff) :
    Except PyErr DsDiff :=
  efoldl (fun dd tkv =>
    if bkv.1 = tkv.1 && !pveq bkv.2 tkv.2 then
      diffAddOrCreate dd dsName (mkFldTriple fn bkv.1 bkv.2 tkv.2) true
    else .ok dd) dd fp

/-- `for base_key, base_val in flds_base.items()` of the common-field
comparison. -/
def pwBaseFld (dsName : DsVal) (fn : PyV) (g fp : Fld) (dd : DsDiff) : Except PyErr DsDiff :=
  efoldl (fun dd bkv => pwInner dsName fn fp bkv dd) dd g

/-- `for flds_base in flds_base_list: if flds_base["Name"] == fld_name`
for one test field. -/
def pwPerFld (dsName : DsVal) (fbList : List Fld) (fp : Fld) (dd : DsDiff) :
    Except PyErr DsDiff :=
  match dgetS fp "Name" with
  | .error e => .error e
  | .ok fn =>
    efoldl (fun dd g =>
      match dgetS g "Name" with
      | .error e => .error e
      | .ok gn => if pveq gn fn then pwBaseFld dsName fn g fp dd else .ok dd) dd fbList

/-- The pairwise property comparison of the common fields (source
lines 393–422): `for fld_prop in val` over the post-removal test
field list. -/
def pairwiseLoop (dsName : DsVal) (fbList val : List Fld) (dd : DsDiff) :
    Except PyErr DsDiff :=
  efoldl (fun dd fp => pwPerFld dsName fbList fp dd) dd val

/-- The `Fields` branch of `compare_datasets` (source lines 369–422):
missing/additional fields by (lowercased) name, in-place removal of the
additional fields from the test list `val`, then the pairwise property
comparison of the remaining fields.  Returns the updated `ds_diff` and
the post-removal `val`. -/
def fieldsBranch (dsName : DsVal) (fbList val : List Fld) (dd : DsDiff) :
    Except PyErr (DsDiff × List Fld) :=
  match emapM (fun f => dgetS f "Name") val with
  | .error e => .error e
  | .ok namesTest =>
    match emapM (fun f => dgetS f "Name") fbList with
    | .error e => .error e
    | .ok namesBase =>
      let missP := (fbList.zip namesBase).filter
        (fun p => !(namesTest.any (fun n => pveq p.2 n)))
      let addP := (val.zip namesTest).filter
        (fun p => !(namesBase.any (fun n => pveq p.2 n)))
      let remStep := fun (st : DsDiff × List Fld) (p : Fld × PyV) =>
        match pyErase fldEq p.1 st.2 with
        | .error e => .error e
        | .ok val' =>
          match diffAddOrCreate st.1 dsName ("Additional field", .v (.s ""), .v p.2) true with
          | .error e => .error e
          | .ok dd' => .ok (dd', val')
      match efoldl remStep (dd, val) addP with
      | .error e => .error e
      | .ok (dd1, val1) =>
        match efoldl (fun dd p =>
            diffAddOrCreate dd dsName ("Missing field", .v p.2, .v (.s "")) true) dd1 missP with
        | .error e => .error e
        | .ok dd2 =>
          match pairwiseLoop dsName fbList val1 dd2 with
          | .error e => .error e
          | .ok dd3 => .ok (dd3, val1)

/-- The `Subtypes` branch of `compare_datasets` (source lines 338–367):
missing/additional subtypes by `SubtypeName`, with in-place removal of
the additional subtypes from `val`.  The `Additional subtype` create
branch assigns a bare tuple (source line 353). -/
def subtypesBranch (dsName : DsVal) (stBase val : List Fld) (dd : DsDiff) :
    Except PyErr (DsDiff × List Fld) :=
  match emapM (fun s => dgetS s "SubtypeName") val with
  | .error e => .error e
  | .ok namesTest =>
    match emapM (fun s => dgetS s "SubtypeName") stBase with
    | .error e => .error e
    | .ok namesBase =>
      let missP := (stBase.zip namesBase).filter
        (fun p => !(namesTest.any (fun n => pveq p.2 n)))
      let addP := (val.zip namesTest).filter
        (fun p => !(namesBase.any (fun n => pveq p.2 n)))
      let remStep := fun (st : DsDiff × List Fld) (p : Fld × PyV) =>
        match pyErase fldEq p.1 st.2 with
        | .error e => .error e
        | .ok val' =>
          match diffAddOrCreate st.1 dsName ("Additional subtype", .v (.s ""), .v p.2) false with
          | .error e => .error e
          | .ok dd' => .ok (dd', val')
      match efoldl remStep (dd, val) addP with
      | .error e => .error e
      | .ok (dd1, val1) =>
        match efoldl (fun dd p =>
            diffAddOrCreate dd dsName ("Missing subtype", .v p.2, .v (.s "")) true) dd1 missP with
        | .error e => .error e
        | .ok dd2 => .ok (dd2, val1)

/-- The `SubtypeInfo` branch of `compare_datasets` (source lines
316–337): compares the single `{field_name: default_code}` entries;
the create branch assigns a bare tuple (source line 331) and the cells
are the two dict keys. -/
def subtypeInfoBranch (nm : String) (dsName : DsVal) (sb sv : List (PyV × PyV))
    (dd : DsDiff) : Except PyErr DsDiff :=
  match sb, sv with
  | [], _ => .error .idxErr
  | _, [] => .error .idxErr
  | (kb, vb) :: _, (kv, vv) :: _ =>
    if pveq kb kv then
      if !pveq vb vv then
        diffAddOrCreate dd dsName
          (nm ++ " has mismatch DefaultSubtypeCode property", .v kb, .v kv) false
      else .ok dd
    else .ok dd

/-- Dispatch on one `(key, val)` item of a test dataset record
(source lines 314–441).  Returns the updated `ds_diff` and the (possibly
mutated) value stored under `key`. -/
def procEntry (nm : String) (dsBase : DSRec) (dsName : DsVal) (key : String) (val : DsVal)
    (dd : DsDiff) : Except PyErr (DsDiff × DsVal) :=
  if key = "SubtypeInfo" then
    match dgetDS dsBase "SubtypeInfo" with
    | .error e => .error e
    | .ok bv =>
      match bv, val with
      | .sinfo sb, .sinfo sv =>
        match subtypeInfoBranch nm dsName sb sv dd with
        | .error e => .error e
        | .ok dd' => .ok (dd', val)
      | _, _ => .error .attrErr -- .keys() on a non-dict
  else if key = "Subtypes" then
    match dgetDS dsBase "Subtypes" with
    | .error e => .error e
    | .ok bv =>
      match bv, val with
      | .lst sb, .lst sv =>
        match subtypesBranch dsName sb sv dd with
        | .error e => .error e
        | .ok (dd', sv') => .ok (dd', .lst sv')
      | _, _ => .error .typeErr -- iterating / indexing a non-list
  else if key = "Fields" then
    match dgetDS dsBase "Fields" with
    | .error e => .error e
    | .ok bv =>
      match bv, val with
      | .lst fb, .lst fv =>
        match fieldsBranch dsName fb fv dd with
        | .error e => .error e
        | .ok (dd', fv') => .ok (dd', .lst fv')
      | _, _ => .error .typeErr
  else
    match dgetDS dsBase key with
    | .error e => .error e
    | .ok bv =>
      if !dsvEq val bv then
        match diffAddOrCreate dd dsName
            (nm ++ " has mismatch " ++ key ++ " property", bv, val) true with
        | .error e => .error e
        | .ok dd' => .ok (dd', val)
      else .ok (dd, val)

/-- One item of the walk over a test record's entries: dispatch the
entry and append the (possibly mutated) entry to the rebuilt record. -/
def procDSStep (nm : String) (dsBase : DSRec) (dsName : DsVal) (st : DsDiff × DSRec)
    (kv : String × DsVal) : Except PyErr (DsDiff × DSRec) :=
  match procEntry nm dsBase dsName kv.1 kv.2 st.1 with
  | .error e => .error e
  | .ok (dd', v') => .ok (dd', st.2 ++ [(kv.1, v')])

/-- Process one test dataset record of `ds_diff_test` (source lines
310–441): look up its name and its base counterpart, then walk its
items.  Returns the updated `ds_diff` and the post-run record. -/
def procDS (nm : String) (base : List DSRec) (ds : DSRec) (dd : DsDiff) :
    Except PyErr (DsDiff × DSRec) :=
  match dgetDS ds "Name" with
  | .error e => .error e
  | .ok dsName =>
    match emapM (fun d => dgetDS d "Name") base with
    | .error e => .error e
    | .ok nb =>
      match ((base.zip nb).filter (fun p => dsvEq p.2 dsName)).map (·.1) with
      | [] => .error .idxErr
      | dsBase :: _ =>
        efoldl (procDSStep nm dsBase dsName) (dd, ([] : DSRec)) ds

/-- Replace the record stored at index `i` of the indexed test
collection (the model of in-place mutation of the list's objects). -/
def updAt (l : List (Nat × DSRec)) (i : Nat) (ds : DSRec) : List (Nat × DSRec) :=
  l.map (fun q => if q.1 = i then (q.1, ds) else q)

/-- Pair each element with its position, starting at `n` (the model of
Python object identity for the mutable test records). -/
def enumL {α : Type} : Nat → List α → List (Nat × α)
  | _, [] => []
  | n, a :: as => (n, a) :: enumL (n + 1) as

/-- `compare_datasets` (source lines 270–443) at the level of the two
normalized dataset lists it computes first (the ignore flags only
affect the parser).  `nm` is the `name` argument ("Feature Class" or
"Table").  The result also carries the post-run test collection, since
the source mutates the test records' `Fields`/`Subtypes` lists in
place; records are tracked by position (object identity). -/
def compare_datasets_core (base test : List DSRec) (nm : String) :
    Except PyErr ((List DSRec × DsDiff × List DSRec) × List DSRec) :=
  if dsListEq base test then .ok (([], [], []), test)
  else
    let testI := enumL 0 test
    -- ds_diff_test = [i for i in test if i not in base]
    let diffTest := testI.filter (fun p => !(base.any (fun b => dsEq b p.2)))
    match emapM (fun i => dgetDS i "Name") test with
    | .error e => .error e
    | .ok namesTest =>
      match emapM (fun i => dgetDS i "Name") base with
      | .error e => .error e
      | .ok namesBase =>
        let miss := (base.zip namesBase).filter
          (fun p => !(namesTest.any (fun n => dsvEq p.2 n))) |>.map (·.1)
        let addP := (testI.zip namesTest).filter
          (fun p => !(namesBase.any (fun n => dsvEq p.2 n)))
        let add := addP.map (fun p => p.1.2)
        -- for ds in ds_add: ds_diff_test.remove(ds)
        match efoldl (fun acc x => pyEraseBy (fun a b => dsEq a.2 b) x acc)
            diffTest (addP.map (fun p => p.1.2)) with
        | .error e => .error e
        | .ok dt =>
          match efoldl (fun (st : DsDiff × List (Nat × DSRec)) (p : Nat × DSRec) =>
              match procDS nm base p.2 st.1 with
              | .error e => .error e
              | .ok (dd', ds') => .ok (dd', updAt st.2 p.1 ds')) ([], testI) dt with
          | .error e => .error e
          | .ok (dd, fin) => .ok ((miss, dd, add), fin.map (·.2))

/-- The return value of `compare_datasets`: `(ds_miss, ds_diff, ds_add)`. -/
def compare_datasets (base test : List DSRec) (nm : String) :
    Except PyErr (List DSRec × DsDiff × List DSRec) :=
  match compare_datasets_core base test nm with
  | .error e => .error e
  | .ok (r, _) => .ok r

/-! ### Feature datasets (`compare_fds`) -/

/-- A value of a normalized feature-dataset dict: a scalar property or
the `Children` name list. -/
inductive FdsVal where
  | v (x : PyV)
  | ch (l : List PyV)
deriving DecidableEq, Repr

/-- A normalized feature-dataset record. -/
abbrev FdsRec := List (String × FdsVal)

/-- Python `==` on values of a feature-dataset dict. -/
def fdsvEq : FdsVal → FdsVal → Bool
  | .v a, .v b => pveq a b
  | .ch a, .ch b => listEqBy pveq a b
  | _, _ => false

/-- Python `==` on feature-dataset records. -/
def fdsEq (a b : FdsRec) : Bool := dictEqBy streq fdsvEq a b

/-- Python `==` on lists of feature-dataset records. -/
def fdsListEq : List FdsRec → List FdsRec → Bool := listEqBy fdsEq

/-- One mismatch row of a feature-dataset diff. -/
abbrev FdsTriple := String × FdsVal × FdsVal

/-- `d[k]` on a feature-dataset record. -/
def dgetFds (d : FdsRec) (k : String) : Except PyErr FdsVal :=
  match alookup streq k d with
  | Option.none => .error .keyErr
  | Option.some v => .ok v

/-- `compare_fds` (source lines 554–595) at the level of the two
normalized lists it computes first.  Only the scalar properties are
compared (`Children` is skipped); mismatches append or create a list
of triples. -/
def compare_fds (base test : List FdsRec) (nm : String) :
    Except PyErr (List FdsRec × List (FdsVal × List FdsTriple) × List FdsRec) :=
  if fdsListEq base test then .ok ([], [], [])
  else
    let diffTest := test.filter (fun i => !(base.any (fun b => fdsEq b i)))
    match emapM (fun i => dgetFds i "Name") test with
    | .error e => .error e
    | .ok namesTest =>
      match emapM (fun i => dgetFds i "Name") base with
      | .error e => .error e
      | .ok namesBase =>
        let miss := (base.zip namesBase).filter
          (fun p => !(namesTest.any (fun n => fdsvEq p.2 n))) |>.map (·.1)
        let add := (test.zip namesTest).filter
          (fun p => !(namesBase.any (fun n => fdsvEq p.2 n))) |>.map (·.1)
        match efoldl (fun acc x => pyErase fdsEq x acc) diffTest add with
        | .error e => .error e
        | .ok dt =>
          let step := fun (dd : List (FdsVal × List FdsTriple)) (fds : FdsRec) =>
            match dgetFds fds "Name" with
            | .error e => .error e
            | .ok fdsName =>
              match emapM (fun f => dgetFds f "Name") base with
              | .error e => .error e
              | .ok nb =>
                match ((base.zip nb).filter (fun p => fdsvEq p.2 fdsName)).map (·.1) with
                | [] => .error .idxErr
                | fdsBase :: _ =>
                  efoldl (fun dd kv =>
                    let (key, val) := kv
                    if key ≠ "Children" then
                      match dgetFds fdsBase key with
                      | .error e => .error e
                      | .ok bv =>
                        if !fdsvEq val bv then
                          let triple : FdsTriple :=
                            (nm ++ " has mismatch " ++ key ++ " property", bv, val)
                          match alookup fdsvEq fdsName dd with
                          | Option.none => .ok (dinsert fdsvEq fdsName [triple] dd)
                          | Option.some ts => .ok (dinsert fdsvEq fdsName (ts ++ [triple]) dd)
                        else .ok dd
                    else .ok dd) dd fds
          match efoldl step [] dt with
          | .error e => .error e
          | .ok dd => .ok (miss, dd, add)

/-! ### Topologies (`compare_topo`) -/

/-- A topology rule record: a flat dict of scalar values (class IDs
already resolved to names by the parser). -/
abbrev RuleRec := List (String × PyV)

/-- A value of a normalized topology dict. -/
inductive TopoVal where
  | v (x : PyV)
  | fcs (l : List PyV)
  | rules (l : List RuleRec)
deriving DecidableEq, Repr

/-- A normalized topology record. -/
abbrev TopoRec := List (String × TopoVal)

/-- Python `==` on topology rule records. -/
def ruleEq (a b : RuleRec) : Bool := dictEqBy streq pveq a b

/-- Python `==` on values of a topology dict. -/
def topovEq : TopoVal → TopoVal → Bool
  | .v a, .v b => pveq a b
  | .fcs a, .fcs b => listEqBy pveq a b
  | .rules a, .rules b => listEqBy ruleEq a b
  | _, _ => false

/-- Python `==` on topology records. -/
def topoEq (a b : TopoRec) : Bool := dictEqBy streq topovEq a b

/-- Python `==` on lists of topology records. -/
def topoListEq : List TopoRec → List TopoRec → Bool := listEqBy topoEq

/-- One mismatch row of a topology diff. -/
abbrev TopoTriple := String × TopoVal × TopoVal

/-- `d[k]` on a topology record. -/
def dgetT (d : TopoRec) (k : String) : Except PyErr TopoVal :=
  match alookup streq k d with
  | Option.none => .error .keyErr
  | Option.some v => .ok v

/-- First-occurrence deduplication of a `PyV` list (stand-in for
Python's `set(...)`, whose iteration order is unspecified). -/
def dedupPV : List PyV → List PyV
  | [] => []
  | a :: as => a :: (dedupPV as).filter (fun b => !pveq b a)

/-- `str(rule).replace("'", "")`: the Python repr of a rule dict with
all apostrophes removed (source lines 757, 765, 776, 784). -/
def ruleReprStripped (r : RuleRec) : String :=
  ("\x7b" ++ String.intercalate ", "
      (r.map (fun p => "'" ++ p.1 ++ "': " ++ pyRepr p.2)) ++ "\x7d").replace "'" ""

/-- Append-or-create on a topology diff dict (all branches of
`compare_topo` create lists). -/
def topoAddOrCreate (dd : List (TopoVal × List TopoTriple)) (k : TopoVal) (tr : TopoTriple) :
    List (TopoVal × List TopoTriple) :=
  match alookup topovEq k dd with
  | Option.none => dinsert topovEq k [tr] dd
  | Option.some ts => dinsert topovEq k (ts ++ [tr]) dd

/-- `compare_topo` (source lines 664–788) at the level of the two
normalized lists it computes first.  Scalar properties are compared
directly; `FeatureClassNames` and `TopologyRules` differences are
reported as one triple per missing/additional element. -/
def compare_topo (base test : List TopoRec) (nm : String) :
    Except PyErr (List TopoRec × List (TopoVal × List TopoTriple) × List TopoRec) :=
  if topoListEq base test then .ok ([], [], [])
  else
    let diffTest := test.filter (fun i => !(base.any (fun b => topoEq b i)))
    match emapM (fun i => dgetT i "Name") test with
    | .error e => .error e
    | .ok namesTest =>
      match emapM (fun i => dgetT i "Name") base with
      | .error e => .error e
      | .ok namesBase =>
        let miss := (base.zip namesBase).filter
          (fun p => !(namesTest.any (fun n => topovEq p.2 n))) |>.map (·.1)
        let add := (test.zip namesTest).filter
          (fun p => !(namesBase.any (fun n => topovEq p.2 n))) |>.map (·.1)
        match efoldl (fun acc x => pyErase topoEq x acc) diffTest add with
        | .error e => .error e
        | .ok dt =>
          let step := fun (dd : List (TopoVal × List TopoTriple)) (topo : TopoRec) =>
            match dgetT topo "Name" with
            | .error e => .error e
            | .ok topoName =>
              match emapM (fun t => dgetT t "Name") base with
              | .error e => .error e
              | .ok nb =>
                match ((base.zip nb).filter (fun p => topovEq p.2 topoName)).map (·.1) with
                | [] => .error .idxErr
                | topoBase :: _ =>
                  efoldl (fun dd kv =>
                    let (key, val) := kv
                    if key ≠ "FeatureClassNames" && key ≠ "TopologyRules" then
                      match dgetT topoBase key with
                      | .error e => .error e
                      | .ok bv =>
                        if !topovEq val bv then
                          .ok (topoAddOrCreate dd topoName
                            (nm ++ " has mismatch " ++ key ++ " property", bv, val))
                        else .ok dd
                    else if key = "FeatureClassNames" then
                      match dgetT topoBase key with
                      | .error e => .error e
                      | .ok bv =>
                        match bv, val with
                        | .fcs bl, .fcs vl =>
                          if !listEqBy pveq vl bl then
                            -- list(set(base)-set(val)) / list(set(val)-set(base));
                            -- the model keeps first-occurrence order
                            let missFcs := dedupPV (bl.filter
                              (fun x => !(vl.any (fun y => pveq y x))))
                            let addFcs := dedupPV (vl.filter
                              (fun x => !(bl.any (fun y => pveq y x))))
                            let dd := missFcs.foldl (fun dd fc =>
                              topoAddOrCreate dd topoName
                                ("Missing feature class in topology", .v fc, .v .none)) dd
                            let dd := addFcs.foldl (fun dd fc =>
                              topoAddOrCreate dd topoName
                                ("Additional feature class in topology", .v .none, .v fc)) dd
                            .ok dd
                          else .ok dd
                        | _, _ => .error .typeErr
                    else
                      match dgetT topoBase key with
                      | .error e => .error e
                      | .ok bv =>
                        match bv, val with
                        | .rules bl, .rules vl =>
                          if !listEqBy ruleEq vl bl then
                            let missRules := bl.filter
                              (fun r => !(vl.any (fun s => ruleEq s r)))
                            let addRules := vl.filter
                              (fun r => !(bl.any (fun s => ruleEq s r)))
                            let dd := missRules.foldl (fun dd r =>
                              topoAddOrCreate dd topoName
                                ("Missing topology rule", .v (.s (ruleReprStripped r)), .v .none)) dd
                            let dd := addRules.foldl (fun dd r =>
                              topoAddOrCreate dd topoName
                                ("Additional topology rule", .v .none, .v (.s (ruleReprStripped r)))) dd
                            .ok dd
                          else .ok dd
                        | _, _ => .error .typeErr) dd topo
          match efoldl step [] dt with
          | .error e => .error e
          | .ok dd => .ok (miss, dd, add)

/-! ### The document tree and the parser pieces the claims depend on

An lxml element is modelled by its tag, its text and its children
(attributes are only used by the source to discriminate `DataElement`
categories, which the collection-level differ models do not need). -/

/-- An XML element tree. -/
inductive XTree where
  | node (tag : String) (text : Option String) (children : List XTree)

/-- The element's tag. -/
def XTree.tag : XTree → String
  | .node t _ _ => t

/-- The element's text (`None` for an empty element). -/
def XTree.text : XTree → Option String
  | .node _ x _ => x

/-- `elem.getchildren()`. -/
def XTree.children : XTree → List XTree
  | .node _ _ c => c

mutual
/-- `elem.iter()`: the element and all its descendants in document
(pre-)order. -/
def XTree.iterAll : XTree → List XTree
  | .node t x cs => .node t x cs :: iterAllList cs

/-- `iter` over a list of sibling subtrees. -/
def iterAllList : List XTree → List XTree
  | [] => []
  | c :: cs => c.iterAll ++ iterAllList cs
end

/-- `elem.iter(tag)`: the elements of `iter()` with the given tag. -/
def XTree.iterTag (t : XTree) (tg : String) : List XTree :=
  t.iterAll.filter (fun e => e.tag = tg)

/-- The last element of a non-empty list (the value a Python loop
variable holds after the loop). -/
def lastD {α : Type} (a : α) : List α → α
  | [] => a
  | b :: rest => lastD b rest

/-- A `≤` on domain-dict values extending `pvle`, used for the sort by
`DomainName` (Python would raise `TypeError` on non-string sort keys;
the model keeps the sort total instead). -/
def dvle : DVal → DVal → Bool
  | .v a, .v b => pvle a b
  | .v _, .cv _ => true
  | .cv _, .v _ => false
  | .cv _, .cv _ => true

/-- State of the property loop of one `Domain` element: the record
built so far, the `cv_dict` accumulator, and the loop-carried `name`
and `max_value` variables (`Option.none` = not yet bound). -/
abbrev DomSt := DomainRec × CVD × Option PyV × Option PyV

/-- One step of `for domain_prop in list(elem.iter())` of
`get_domain_properties` (source lines 53–75). -/
def domainStep (st : DomSt) (p : XTree) : Except PyErr DomSt :=
  let (dd, cv, nameVar, maxVar) := st
  if p.tag = "DomainName" ∨ p.tag = "FieldType" ∨ p.tag = "MergePolicy" ∨
      p.tag = "SplitPolicy" then
    .ok (dinsert streq p.tag (.v (ofText p.text)) dd, cv, nameVar, maxVar)
  else if p.tag = "CodedValues" then
    -- for cv in coded_values: for cv_prop in cv.iter(): ...
    let inner := fun (st : CVD × Option PyV) (cvp : XTree) =>
      let (cv, nameVar) := st
      if cvp.tag = "Name" then .ok (cv, Option.some (ofText cvp.text))
      else if cvp.tag = "Code" then
        match nameVar with
        | Option.none => .error (.nameErr "name")
        | Option.some nm => .ok (dinsert pveq nm (ofText cvp.text) cv, nameVar)
      else .ok st
    match efoldl (fun st c => efoldl inner st c.iterAll) (cv, nameVar) p.children with
    | .error e => .error e
    | .ok (cv', nameVar') =>
      -- sorted_cv_dict = dict(sorted(cv_dict.items()))
      let sorted := isortBy (fun a b => pvle a.1 b.1) cv'
      .ok (dinsert streq "CodedValues" (.cv sorted) dd, cv', nameVar', maxVar)
  else if p.tag = "MaxValue" then
    .ok (dd, cv, nameVar, Option.some (ofText p.text))
  else if p.tag = "MinValue" then
    match maxVar with
    | Option.none => .error (.nameErr "max_value")
    | Option.some mx =>
      .ok (dinsert streq "Range"
        (.v (.s (pyStr (ofText p.text) ++ " - " ++ pyStr mx))) dd, cv, nameVar, maxVar)
  else .ok st

/-- Parse one `Domain` element into a normalized domain record. -/
def parseDomain (elem : XTree) : Except PyErr DomainRec :=
  match efoldl domainStep ([], [], Option.none, Option.none) elem.iterAll with
  | .error e => .error e
  | .ok (dd, _, _, _) => .ok dd

/-- `get_domain_properties` (source lines 47–81).  `domain_list` is
bound only inside `for node in tree.iter("Domains")`, so a document
with no `Domains` element reaches the final `domain_list.sort(...)`
with the variable unbound — a `NameError` — instead of returning an
empty list.  With several `Domains` elements each iteration rebinds
`domain_list`, so the last one wins. -/
def get_domain_properties (tree : XTree) : Except PyErr (List DomainRec) :=
  match tree.iterTag "Domains" with
  | [] => .error (.nameErr "domain_list")
  | n :: rest =>
    match emapM parseDomain ((lastD n rest).iterTag "Domain") with
    | .error e => .error e
    | .ok lst =>
      -- domain_list.sort(key=operator.itemgetter("DomainName"))
      match emapM (fun r => dgetD r "DomainName") lst with
      | .error e => .error e
      | .ok keys =>
        .ok (((isortBy (fun p q => dvle p.2 q.2) (lst.zip keys)).map (·.1)))

/-- `compare_domains` applied to two documents, as the source does:
both normalized lists are computed first (base, then test), then
diffed. -/
def compare_domains_xml (t1 t2 : XTree) :
    Except PyErr (List DomainRec × List (DVal × List DomTriple) × List DomainRec) :=
  match get_domain_properties t1 with
  | .error e => .error e
  | .ok b =>
    match get_domain_properties t2 with
    | .error e => .error e
    | .ok t => compare_domains b t

/-- Python `str.lower()` for the ASCII names the exports use, defined
over the character list so that concrete parses evaluate. -/
def pyLower (s : String) : String := String.mk (s.data.map Char.toLower)

/-- One step of `for fld_prop in flds_data` of the `Field` branch of
`get_dataset_properties` (source lines 230–253).  Every iteration first
resets `flds_dict["Domain"] = ""`; `Name` is lowercased (`None.lower()`
would raise `AttributeError`). -/
def parseFieldStep (ignoreFldAlias : Bool) (acc : Fld) (c : XTree) : Except PyErr Fld :=
  let acc := dinsert streq "Domain" (.s "") acc
  if c.tag = "Type" ∨ c.tag = "IsNullable" ∨ c.tag = "Length" ∨ c.tag = "Precision" ∨
      c.tag = "Scale" ∨ c.tag = "Required" ∨ c.tag = "Editable" ∨
      c.tag = "DefaultValue" then
    .ok (dinsert streq c.tag (ofText c.text) acc)
  else if c.tag = "Name" then
    match c.text with
    | Option.none => .error .attrErr
    | Option.some t => .ok (dinsert streq "Name" (.s (pyLower t)) acc)
  else if c.tag = "AliasName" then
    if !ignoreFldAlias then .ok (dinsert streq "AliasName" (ofText c.text) acc)
    else .ok acc
  else if c.tag = "Domain" then
    .ok (c.children.foldl (fun a dc =>
      if dc.tag = "DomainName" then dinsert streq "Domain" (ofText dc.text) a else a) acc)
  else .ok acc

/-- The `Field` branch of `get_dataset_properties` (source lines
230–258) for one `Field` element's children: build the field record,
then — when the `IGNORE_LEN_NON_TEXT_FIELDS` flag is set and the field
is not a text field — delete its `Length` entry (`flds_dict["Type"]`
raises `KeyError` when there is no `Type`; so does `__delitem__` when
there is no `Length`). -/
def parseField (ignoreFldAlias ignoreLen : Bool) (children : List XTree) :
    Except PyErr Fld :=
  match efoldl (parseFieldStep ignoreFldAlias) [] children with
  | .error e => .error e
  | .ok d =>
    match alookup streq "Type" d with
    | Option.none => .error .keyErr
    | Option.some tv =>
      if !pveq tv (.s "esriFieldTypeString") && ignoreLen then ddelete streq "Length" d
      else .ok d

/-! ### The aggregator (script body, source lines 980–1094)

The script runs the seven category comparisons in a fixed order; each
non-empty result sets `save_wb = True` and writes one sheet; the
workbook is saved only when `save_wb` ended up true.  The model takes
the seven already-computed results (an exception anywhere would abort
the whole script before saving). -/

/-- Python truthiness of one comparison result:
`if miss or diff or add`. -/
def nonempty3 {α β γ : Type} (r : List α × List β × List γ) : Bool :=
  !r.1.isEmpty || !(r.2.1).isEmpty || !(r.2.2).isEmpty

/-- A feature-dataset comparison result. -/
abbrev FdsRes := List FdsRec × List (FdsVal × List FdsTriple) × List FdsRec
/-- A feature-class / table comparison result. -/
abbrev DsRes := List DSRec × DsDiff × List DSRec
/-- A relationship-class comparison result. -/
abbrev RcRes := List RCRec × List (PyV × List RCTriple) × List RCRec
/-- A domain comparison result. -/
abbrev DomRes := List DomainRec × List (DVal × List DomTriple) × List DomainRec
/-- A topology comparison result. -/
abbrev TopoRes := List TopoRec × List (TopoVal × List TopoTriple) × List TopoRec
/-- An attribute-rule comparison result. -/
abbrev ArRes := List String × List (String × List RCTriple) × List String

/-- The script's aggregation: the final `save_wb` flag and the list of
sheets written, given the seven comparison results and the two
category-skipping flags. -/
def run_report (ignoreDomains ignoreTopology : Bool) (fdsR : FdsRes) (fcR tblR : DsRes)
    (rcR : RcRes) (domR : DomRes) (topoR : TopoRes) (arR : ArRes) : Bool × List String :=
  let st : Bool × List String := (false, [])
  let st := if nonempty3 fdsR then (true, st.2 ++ ["Feature Datasets"]) else st
  let st := if nonempty3 fcR then (true, st.2 ++ ["Feature Classes"]) else st
  let st := if nonempty3 tblR then (true, st.2 ++ ["Tables"]) else st
  let st := if nonempty3 rcR then (true, st.2 ++ ["Relationship Classes"]) else st
  let st := if !ignoreDomains && nonempty3 domR then (true, st.2 ++ ["Domains"]) else st
  let st := if !ignoreTopology && nonempty3 topoR then (true, st.2 ++ ["Topologies"]) else st
  let st := if nonempty3 arR then (true, st.2 ++ ["Attribute Rules"]) else st
  st

/-- A triple occurs somewhere in a `ds_diff` dict. -/
def tripleInDiff (dd : DsDiff) (t : DsTriple) : Prop := ∃ e ∈ dd, t ∈ trsOf e.2

/-- Provenance of a pairwise field triple: it arises from a test field
`fp` and a base field `g` with matching names and a key `bk` present in
both records with differing values — in particular, no triple for a key
absent from the base records can be produced. -/
def pairProvenance (fb val : List Fld) (t : DsTriple) : Prop :=
  ∃ fp ∈ val, ∃ g ∈ fb, ∃ n gn bk bv tv,
    alookup streq "Name" fp = some n ∧ alookup streq "Name" g = some gn ∧
    pveq gn n = true ∧ (bk, bv) ∈ g ∧ (bk, tv) ∈ fp ∧ pveq bv tv = false ∧
    t = mkFldTriple n bk bv tv

/-! ## Concrete instances used in the theorems below -/

/-- The spec's end-to-end scenario 1, base side: domain `Status` with
coded values `{"Active": 1, "Inactive": 2}` (description → code, as the
parser stores them, sorted by description). -/
def statusBase : DomainRec :=
  [("DomainName", .v (.s "Status")), ("FieldType", .v (.s "esriFieldTypeInteger")),
   ("MergePolicy", .v (.s "esriMPTDefaultValue")), ("SplitPolicy", .v (.s "esriSPTDefaultValue")),
   ("CodedValues", .cv [(.s "Active", .i 1), (.s "Inactive", .i 2)])]

/-- The spec's end-to-end scenario 1, test side: domain `Status` with
coded values `{"Active": 1, "Retired": 2}`. -/
def statusTest : DomainRec :=
  [("DomainName", .v (.s "Status")), ("FieldType", .v (.s "esriFieldTypeInteger")),
   ("MergePolicy", .v (.s "esriMPTDefaultValue")), ("SplitPolicy", .v (.s "esriSPTDefaultValue")),
   ("CodedValues", .cv [(.s "Active", .i 1), (.s "Retired", .i 2)])]

/-- A relationship class whose `Cardinality` and `KeyType` both differ
from `rcTestR`'s. -/
def rcBaseR : RCRec :=
  [("Name", .s "R"), ("Cardinality", .s "esriRelCardinalityOneToMany"), ("KeyType", .s "esriRelKeySingle")]

/-- Test-side counterpart of `rcBaseR` with two differing properties. -/
def rcTestR : RCRec :=
  [("Name", .s "R"), ("Cardinality", .s "esriRelCardinalityOneToOne"), ("KeyType", .s "esriRelKeyDual")]

/-- A domain whose `FieldType` and `MergePolicy` both differ from
`domTestD`'s (no coded values). -/
def domBaseD : DomainRec :=
  [("DomainName", .v (.s "D")), ("FieldType", .v (.s "esriFieldTypeInteger")),
   ("MergePolicy", .v (.s "esriMPTDefaultValue"))]

/-- Test-side counterpart of `domBaseD` with two differing scalar
properties. -/
def domTestD : DomainRec :=
  [("DomainName", .v (.s "D")), ("FieldType", .v (.s "esriFieldTypeString")),
   ("MergePolicy", .v (.s "esriMPTAreaWeighted"))]

/-- An attribute-rule collection: one rule keyed `"Roads: RuleA"`. -/
def arBase : List (String × ARRec) := [("Roads: RuleA", [("Type", .s "esriARTCalculation")])]

/-- Same key as `arBase`, differing `Type` value. -/
def arTest : List (String × ARRec) := [("Roads: RuleA", [("Type", .s "esriARTConstraint")])]

/-- Field `objectid`, shared by base and test in the C9 instance. -/
def fldOid : Fld := [("Domain", .s ""), ("Name", .s "objectid"), ("Type", .s "esriFieldTypeOID")]

/-- Field `extra`, present only in the C9 test record. -/
def fldExtra : Fld := [("Domain", .s ""), ("Name", .s "extra"), ("Type", .s "esriFieldTypeString")]

/-- A dataset record named `A` with the given field list, shaped as the
parser builds records. -/
def mkDsA (fs : List Fld) : DSRec :=
  [("SubtypeFieldName", .v (.s "")), ("Name", .v (.s "A")),
   ("Fields", .lst fs), ("Subtypes", .lst []), ("SubtypeInfo", .sinfo [(.s "", .s "")])]

/-- One dict entry after the differ, against its original: the key is
unchanged and the value is either untouched or a list some of whose
elements were removed (`val.remove`). -/
def valShrunk (p q : String × DsVal) : Prop :=
  p.1 = q.1 ∧ (p.2 = q.2 ∨ ∃ l l0, p.2 = DsVal.lst l ∧ q.2 = DsVal.lst l0 ∧ l.Sublist l0)

/-- A post-run dataset record against its original: entrywise
`valShrunk`. -/
def recShrunk (d d0 : DSRec) : Prop := List.Forall₂ valShrunk d d0

/-- A dataset record named `Roads` with the given single field, shaped
as the parser builds feature-class records. -/
def mkRoads (f : Fld) : DSRec :=
  [("SubtypeFieldName", .v (.s "")), ("Name", .v (.s "Roads")),
   ("Fields", .lst [f]), ("Subtypes", .lst []), ("SubtypeInfo", .sinfo [(.s "", .s "")])]

/-- The C8 base-side `SPEED` field: domain `SpeedLimits`, then any
further common properties `rest`. -/
def speedFldBase (rest : Fld) : Fld := ("Domain", .s "SpeedLimits") :: ("Name", .s "SPEED") :: rest

/-- The C8 test-side `SPEED` field: no domain (the parser stores `""`),
same `rest`. -/
def speedFldTest (rest : Fld) : Fld := ("Domain", .s "") :: ("Name", .s "SPEED") :: rest

/-- The dataset diff C8 expects: exactly one triple for `Roads`. -/
def speedDiff : DsDiff :=
  [(DsVal.v (.s "Roads"), DiffVal.l [("SPEED field has different values for Domain",
    DsVal.v (.s "SpeedLimits"), DsVal.v (.s ""))])]

/-! ## Helper lemmas -/

theorem efoldl_skip {σ α : Type} (f : σ → α → Except PyErr σ) :
    ∀ (l : List α) (s : σ), (∀ a ∈ l, f s a = .ok s) → efoldl f s l = .ok s := by
  intro l
  induction l with
  | nil => intro s _; rfl
  | cons a as ih =>
    intro s h
    simp only [efoldl]
    rw [h a (List.mem_cons_self a as)]
    exact ih s (fun b hb => h b (List.mem_cons_of_mem a hb))

theorem efoldl_cons_ok {σ α : Type} (f : σ → α → Except PyErr σ) (s s' : σ) (a : α)
    (l : List α) (h : f s a = .ok s') : efoldl f s (a :: l) = efoldl f s' l := by
  simp only [efoldl]
  rw [h]

theorem efoldl_singleton {σ α : Type} (f : σ → α → Except PyErr σ) (s : σ) (a : α) :
    efoldl f s [a] = f s a := by
  simp only [efoldl]
  cases f s a <;> rfl

theorem pveq_refl (a : PyV) : pveq a a = true := by simp [pveq]

theorem streq_refl (a : String) : streq a a = true := by simp [streq]

theorem dictEqBy_refl {κ ν : Type} (keq : κ → κ → Bool) (veq : ν → ν → Bool)
    (hv : ∀ v, veq v v = true) (d : List (κ × ν)) : dictEqBy keq veq d d = true := by
  unfold dictEqBy
  rw [Bool.and_eq_true]
  constructor <;>
    (rw [List.all_eq_true]; intro p _; cases h : alookup keq p.1 d <;> simp [h, hv])

theorem listEqBy_refl {α : Type} (eq : α → α → Bool) (h : ∀ a, eq a a = true) :
    ∀ l : List α, listEqBy eq l l = true := by
  intro l
  induction l with
  | nil => rfl
  | cons a as ih => simp [listEqBy, h, ih]

theorem cvEq_refl (d : CVD) : cvEq d d = true :=
  dictEqBy_refl pveq pveq pveq_refl d

theorem dvEq_refl (v : DVal) : dvEq v v = true := by
  cases v with
  | v x => simp [dvEq, pveq_refl]
  | cv d => simp [dvEq, cvEq_refl]

theorem domEq_refl (d : DomainRec) : domEq d d = true :=
  dictEqBy_refl streq dvEq dvEq_refl d

theorem domListEq_refl (l : List DomainRec) : domListEq l l = true :=
  listEqBy_refl domEq domEq_refl l

theorem rcEq_refl (r : RCRec) : rcEq r r = true :=
  dictEqBy_refl streq pveq pveq_refl r

theorem rcListEq_refl (l : List RCRec) : rcListEq l l = true :=
  listEqBy_refl rcEq rcEq_refl l

theorem arEq_refl (r : ARRec) : arEq r r = true :=
  dictEqBy_refl streq pveq pveq_refl r

theorem arCollEq_refl (c : List (String × ARRec)) : arCollEq c c = true :=
  dictEqBy_refl streq arEq arEq_refl c

theorem fldEq_refl (f : Fld) : fldEq f f = true :=
  dictEqBy_refl streq pveq pveq_refl f

theorem fldListEq_refl (l : List Fld) : fldListEq l l = true :=
  listEqBy_refl fldEq fldEq_refl l

theorem sinfoEq_refl (m : List (PyV × PyV)) : sinfoEq m m = true :=
  dictEqBy_refl pveq pveq pveq_refl m

theorem dsvEq_refl (v : DsVal) : dsvEq v v = true := by
  cases v with
  | v x => simp [dsvEq, pveq_refl]
  | lst l => simp [dsvEq, fldListEq_refl]
  | sinfo m => simp [dsvEq, sinfoEq_refl]

theorem dsEq_refl (d : DSRec) : dsEq d d = true :=
  dictEqBy_refl streq dsvEq dsvEq_refl d

theorem dsListEq_refl (l : List DSRec) : dsListEq l l = true :=
  listEqBy_refl dsEq dsEq_refl l

theorem fdsvEq_refl (v : FdsVal) : fdsvEq v v = true := by
  cases v with
  | v x => simp [fdsvEq, pveq_refl]
  | ch l => simp [fdsvEq, listEqBy_refl pveq pveq_refl]

theorem fdsEq_refl (d : FdsRec) : fdsEq d d = true :=
  dictEqBy_refl streq fdsvEq fdsvEq_refl d

theorem fdsListEq_refl (l : List FdsRec) : fdsListEq l l = true :=
  listEqBy_refl fdsEq fdsEq_refl l

theorem ruleEq_refl (r : RuleRec) : ruleEq r r = true :=
  dictEqBy_refl streq pveq pveq_refl r

theorem topovEq_refl (v : TopoVal) : topovEq v v = true := by
  cases v with
  | v x => simp [topovEq, pveq_refl]
  | fcs l => simp [topovEq, listEqBy_refl pveq pveq_refl]
  | rules l => simp [topovEq, listEqBy_refl ruleEq ruleEq_refl]

theorem topoEq_refl (d : TopoRec) : topoEq d d = true :=
  dictEqBy_refl streq topovEq topovEq_refl d

theorem topoListEq_refl (l : List TopoRec) : topoListEq l l = true :=
  listEqBy_refl topoEq topoEq_refl l

/-! ## Claim C1 -/

/-- Claim C1: for every category differ (domains, feature datasets,
feature classes, tables, relationship classes, topologies, attribute
rules) and every normalized collection `X`, diffing `X` against an
identical collection returns the empty triple `([], {}, [])`: each
source function opens with `if xxx_list_base == xxx_list_test: return
([], {}, [])`, and Python `==` is reflexive on these collections.
`compare_datasets` covers both the feature-class and the table
category. -/
theorem C1_diff_idempotent :
    (∀ X : List DomainRec, compare_domains X X = .ok ([], [], [])) ∧
    (∀ (X : List DSRec) (nm : String), compare_datasets X X nm = .ok ([], [], [])) ∧
    (∀ (X : List RCRec) (nm : String),
      compare_relationship_classes X X nm = .ok ([], [], [])) ∧
    (∀ (X : List FdsRec) (nm : String), compare_fds X X nm = .ok ([], [], [])) ∧
    (∀ (X : List TopoRec) (nm : String), compare_topo X X nm = .ok ([], [], [])) ∧
    (∀ X : List (String × ARRec), compare_attr_rules X X = .ok ([], [], [])) := by
  refine ⟨fun X => ?_, fun X nm => ?_, fun X nm => ?_, fun X nm => ?_, fun X nm => ?_,
    fun X => ?_⟩
  · unfold compare_domains; rw [domListEq_refl]; rfl
  · unfold compare_datasets compare_datasets_core; rw [dsListEq_refl]; rfl
  · unfold compare_relationship_classes; rw [rcListEq_refl]; rfl
  · unfold compare_fds; rw [fdsListEq_refl]; rfl
  · unfold compare_topo; rw [topoListEq_refl]; rfl
  · unfold compare_attr_rules; rw [arCollEq_refl]; rfl

/-! ## Claim C2 -/

/-- Claim C2 (failing evaluation): on the spec's scenario-1 domains the
source does not produce
`("Domain has additional and missing CodedValues", "{2: 'Inactive'}", "{2: 'Retired'}")`:
the branch carrying the `"additional and missing"` label is guarded by
`test_diff == ""`, so a two-sided coded-value difference falls to the
`elif base_diff != ""` branch, which labels it `"missing"` and stringifies
the test-side difference without swapping keys and values. -/
theorem C2_status_coded_values_eval :
    compare_domains [statusBase] [statusTest] =
      .ok ([],
        [(.v (.s "Status"),
          [("Domain has missing CodedValues",
            .v (.s "\x7b2: 'Inactive'\x7d"), .v (.s "\x7b'Retired': 2\x7d"))])],
        []) := by
  rfl

/-! ## Claims C3 and C4: shared fold/insert lemmas -/

theorem efoldl_inv {σ α : Type} (f : σ → α → Except PyErr σ) (P : σ → Prop)
    (hf : ∀ s a s', P s → f s a = .ok s' → P s') :
    ∀ (l : List α) (s s' : σ), P s → efoldl f s l = .ok s' → P s' := by
  intro l
  induction l with
  | nil =>
    intro s s' hP h
    simp only [efoldl] at h
    cases h
    exact hP
  | cons a as ih =>
    intro s s' hP h
    simp only [efoldl] at h
    cases hfa : f s a with
    | error e => rw [hfa] at h; cases h
    | ok s1 => rw [hfa] at h; exact ih s1 s' (hf s a s1 hP hfa) h

theorem mem_dinsert {κ ν : Type} (keq : κ → κ → Bool) (k : κ) (v : ν) :
    ∀ (d : List (κ × ν)) (p : κ × ν), p ∈ dinsert keq k v d → p ∈ d ∨ p.2 = v := by
  intro d
  induction d with
  | nil =>
    intro p hp
    simp only [dinsert, List.mem_singleton] at hp
    right; rw [hp]
  | cons q rest ih =>
    intro p hp
    simp only [dinsert] at hp
    by_cases hq : keq q.1 k = true
    · rw [if_pos hq] at hp
      rcases List.mem_cons.mp hp with h | h
      · right; rw [h]
      · left; exact List.mem_cons_of_mem q h
    · rw [if_neg hq] at hp
      rcases List.mem_cons.mp hp with h | h
      · left; rw [h]; exact List.mem_cons_self q rest
      · rcases ih p h with h' | h'
        · left; exact List.mem_cons_of_mem q h'
        · right; exact h'

/-! ## Claim C3 -/

/-- Claim C3 (counterexample): `rcBaseR` and `rcTestR` differ in two
properties (`Cardinality` and `KeyType`), yet the mismatch list of `R`
holds a single triple — the one of the property processed last — not
two: each mismatch branch of `compare_relationship_classes` assigns
`rc_diff[rc_name] = [triple]`, overwriting earlier triples. -/
theorem C3_two_mismatches_one_triple :
    ∃ l, compare_relationship_classes [rcBaseR] [rcTestR] "Relationship Class" =
        .ok ([], [(.s "R", l)], []) ∧ l.length = 1 := by
  exact ⟨[("Relationship Class has mismatch KeyType property",
    .s "esriRelKeySingle", .s "esriRelKeyDual")], rfl, rfl⟩

/-- Claim C3 (amended): in the relationship-class differ (and the
scalar-property branch of the domain differ) each differing property
overwrites the entity's mismatch list with a fresh single-triple list,
so however many properties differ, the final list holds exactly one
triple — the last differing property in record order — rather than one
triple per differing property.  First conjunct: every entry of any
relationship-class mismatch dict is a singleton.  Second conjunct: the
concrete domain pair with two differing scalar properties likewise
yields a single triple (the `MergePolicy` one). -/
theorem C3_overwrite_semantics :
    (∀ (base test : List RCRec) (nm : String)
        (m : List RCRec) (d : List (PyV × List RCTriple)) (a : List RCRec),
      compare_relationship_classes base test nm = .ok (m, d, a) →
      ∀ p, p ∈ d → p.2.length = 1) ∧
    compare_domains [domBaseD] [domTestD] =
      .ok ([],
        [(.v (.s "D"),
          [("Domain has mismatch MergePolicy property",
            .v (.s "esriMPTDefaultValue"), .v (.s "esriMPTAreaWeighted"))])],
        []) := by
  constructor
  · intro base test nm m d a h p hp
    unfold compare_relationship_classes at h
    by_cases hc : rcListEq base test = true
    · rw [hc] at h
      simp only [if_pos rfl] at h
      cases h
      cases hp
    · rw [Bool.not_eq_true] at hc
      rw [hc] at h
      simp only [Bool.false_eq_true, if_neg, if_false] at h
      split at h
      · cases h
      split at h
      · cases h
      split at h
      · cases h
      split at h
      · cases h
      rename_i dd hdd
      cases h
      -- `d` is the result of the outer fold; both folds only ever store
      -- singleton lists
      have hinv : ∀ q, q ∈ d → (q : PyV × List RCTriple).2.length = 1 := by
        have := efoldl_inv _ (fun (s : List (PyV × List RCTriple)) => ∀ q, q ∈ s → q.2.length = 1)
          ?_ _ [] d (by intro q hq; cases hq) hdd
        · exact this
        · intro s rc s' hP hstep
          simp only at hstep
          split at hstep
          · cases hstep
          split at hstep
          · cases hstep
          refine efoldl_inv _
            (fun s => ∀ q, q ∈ s → (q : PyV × List RCTriple).2.length = 1) ?_ rc s s' hP hstep
          intro t kv t' hPt hkv
          simp only at hkv
          split at hkv
          · cases hkv
          split at hkv
          · rename_i hne
            cases hkv
            intro q hq
            rcases mem_dinsert _ _ _ _ _ hq with h' | h'
            · exact hPt q h'
            · rw [h']; rfl
          · cases hkv
            exact hPt
      exact hinv p hp
  · rfl

/-- Claim C3 (amended, witness): the universal singleton property
applied at the concrete relationship-class pair. -/
theorem C3_overwrite_semantics_witness :
    ([("Relationship Class has mismatch KeyType property",
        PyV.s "esriRelKeySingle", PyV.s "esriRelKeyDual")] : List RCTriple).length = 1 :=
  C3_overwrite_semantics.1 [rcBaseR] [rcTestR] "Relationship Class" []
    [(PyV.s "R", [("Relationship Class has mismatch KeyType property",
        PyV.s "esriRelKeySingle", PyV.s "esriRelKeyDual")])] [] rfl
    (PyV.s "R", [("Relationship Class has mismatch KeyType property",
        PyV.s "esriRelKeySingle", PyV.s "esriRelKeyDual")])
    (List.mem_singleton.mpr rfl)

/-! ## Claim C4 -/

/-- Claim C4 (failing evaluation): when base and test hold exactly the
same rule key but a differing property value, `compare_attr_rules` does
not return a `(missing, mismatch, additional)` triple: `attr_miss` and
`attr_add` are only assigned under `if base_keys != test_keys:`, so the
final `return` raises `UnboundLocalError` — contradicting the spec's
uniform contract `diff(base, test) → (missingList, mismatchDict,
additionalList)`. -/
theorem C4_attr_rules_unbound_local :
    compare_attr_rules arBase arTest = .error (.nameErr "attr_miss") := by
  rfl

/-! ## Claim C5 -/

/-- Claim C5: the script's `save_wb` flag ends up true exactly when at
least one of the seven category comparisons returned a non-empty
`(miss, diff, add)` triple (first conjunct, with the Domains/Topology
skip flags off, i.e. all seven comparisons run); and whenever the
workbook is saved, at least one sheet was written — no empty workbook
is ever produced (second conjunct, for any flag setting).  In
particular, when all seven categories compare identical the flag stays
false and nothing is saved. -/
theorem C5_report_gating :
    ∀ (fdsR : FdsRes) (fcR tblR : DsRes) (rcR : RcRes) (domR : DomRes)
      (topoR : TopoRes) (arR : ArRes),
      ((run_report false false fdsR fcR tblR rcR domR topoR arR).1 = true ↔
        (nonempty3 fdsR = true ∨ nonempty3 fcR = true ∨ nonempty3 tblR = true ∨
         nonempty3 rcR = true ∨ nonempty3 domR = true ∨ nonempty3 topoR = true ∨
         nonempty3 arR = true)) ∧
      (∀ iD iT : Bool, (run_report iD iT fdsR fcR tblR rcR domR topoR arR).1 = true →
        (run_report iD iT fdsR fcR tblR rcR domR topoR arR).2 ≠ []) := by
  intro fdsR fcR tblR rcR domR topoR arR
  constructor
  · unfold run_report
    cases nonempty3 fdsR <;> cases nonempty3 fcR <;> cases nonempty3 tblR <;>
      cases nonempty3 rcR <;> cases nonempty3 domR <;> cases nonempty3 topoR <;>
      cases nonempty3 arR <;> simp
  · intro iD iT
    unfold run_report
    cases iD <;> cases iT <;>
      cases nonempty3 fdsR <;> cases nonempty3 fcR <;> cases nonempty3 tblR <;>
      cases nonempty3 rcR <;> cases nonempty3 domR <;> cases nonempty3 topoR <;>
      cases nonempty3 arR <;> simp

/-- Claim C5 (witness): with a non-empty feature-dataset result and
every other category empty, the flag is set and a sheet exists. -/
theorem C5_report_gating_witness :
    (run_report false false ([[("Name", FdsVal.v (.s "X"))]], [], [])
      ([], [], []) ([], [], []) ([], [], []) ([], [], []) ([], [], []) ([], [], [])).1 = true ∧
    (run_report false false ([[("Name", FdsVal.v (.s "X"))]], [], [])
      ([], [], []) ([], [], []) ([], [], []) ([], [], []) ([], [], []) ([], [], [])).2 ≠ [] := by
  have h := C5_report_gating ([[("Name", FdsVal.v (.s "X"))]], [], [])
    ([], [], []) ([], [], []) ([], [], []) ([], [], []) ([], [], []) ([], [], [])
  exact ⟨h.1.mpr (Or.inl rfl), h.2 false false (h.1.mpr (Or.inl rfl))⟩

/-! ## Claim C10 -/

/-- Claim C10: `domain_list` is initialized inside
`for node in tree.iter("Domains")`, so for a document with no element
tagged `Domains` the loop body never runs and the trailing
`domain_list.sort(...)` raises a `NameError` instead of returning `[]`;
consequently `compare_domains` requires each input document to contain
a `Domains` element (second conjunct: the whole domain comparison fails
with the same error when the base document lacks one). -/
theorem C10_missing_domains_unbound :
    ∀ t t2 : XTree, t.iterTag "Domains" = [] →
      get_domain_properties t = .error (.nameErr "domain_list") ∧
      compare_domains_xml t t2 = .error (.nameErr "domain_list") := by
  intro t t2 h
  have hg : get_domain_properties t = .error (.nameErr "domain_list") := by
    unfold get_domain_properties
    rw [h]
  exact ⟨hg, by unfold compare_domains_xml; rw [hg]⟩

/-- Claim C10 (witness): a concrete document without a `Domains`
element. -/
theorem C10_missing_domains_unbound_witness :
    get_domain_properties (.node "root" Option.none [.node "Other" Option.none []]) =
        .error (.nameErr "domain_list") ∧
      compare_domains_xml (.node "root" Option.none [.node "Other" Option.none []])
        (.node "root" Option.none []) = .error (.nameErr "domain_list") :=
  C10_missing_domains_unbound (.node "root" Option.none [.node "Other" Option.none []])
    (.node "root" Option.none []) rfl

/-! ## Claim C9: helper lemmas -/

theorem pyErase_sublist {α : Type} (eq : α → α → Bool) (x : α) :
    ∀ (l l' : List α), pyErase eq x l = .ok l' → l'.Sublist l := by
  intro l
  induction l with
  | nil => intro l' h; cases h
  | cons a as ih =>
    intro l' h
    simp only [pyErase] at h
    by_cases ha : eq a x = true
    · rw [if_pos ha] at h; cases h; exact List.sublist_cons_self a as
    · rw [if_neg ha] at h
      cases he : pyErase eq x as with
      | error e => rw [he] at h; cases h
      | ok as' => rw [he] at h; cases h; exact (ih as' he).cons₂ a

theorem pyEraseBy_subset {α β : Type} (eq : α → β → Bool) (x : β) :
    ∀ (l l' : List α), pyEraseBy eq x l = .ok l' → ∀ a ∈ l', a ∈ l := by
  intro l
  induction l with
  | nil => intro l' h; cases h
  | cons a as ih =>
    intro l' h
    simp only [pyEraseBy] at h
    by_cases ha : eq a x = true
    · rw [if_pos ha] at h; cases h; intro b hb; exact List.mem_cons_of_mem a hb
    · rw [if_neg ha] at h
      cases he : pyEraseBy eq x as with
      | error e => rw [he] at h; cases h
      | ok as' =>
        rw [he] at h; cases h
        intro b hb
        rcases List.mem_cons.mp hb with h' | h'
        · rw [h']; exact List.mem_cons_self a as
        · exact List.mem_cons_of_mem a (ih as' he b h')

theorem fieldsBranch_shrinks (dsName : DsVal) (fb val : List Fld) (dd : DsDiff)
    (dd' : DsDiff) (val' : List Fld) (h : fieldsBranch dsName fb val dd = .ok (dd', val')) :
    val'.Sublist val := by
  unfold fieldsBranch at h
  split at h
  · cases h
  split at h
  · cases h
  dsimp only at h
  split at h
  · cases h
  rename_i dd1 val1 hfold
  have hsub : val1.Sublist val := by
    have := efoldl_inv _ (fun (st : DsDiff × List Fld) => st.2.Sublist val) ?_ _ (dd, val)
      (dd1, val1) (List.Sublist.refl val) hfold
    · exact this
    · intro s a s' hP hstep
      simp only at hstep
      split at hstep
      · cases hstep
      rename_i v' he
      split at hstep
      · cases hstep
      cases hstep
      exact (pyErase_sublist _ _ _ _ he).trans hP
  split at h
  · cases h
  split at h
  · cases h
  cases h
  exact hsub

theorem subtypesBranch_shrinks (dsName : DsVal) (sb val : List Fld) (dd : DsDiff)
    (dd' : DsDiff) (val' : List Fld) (h : subtypesBranch dsName sb val dd = .ok (dd', val')) :
    val'.Sublist val := by
  unfold subtypesBranch at h
  split at h
  · cases h
  split at h
  · cases h
  dsimp only at h
  split at h
  · cases h
  rename_i dd1 val1 hfold
  have hsub : val1.Sublist val := by
    have := efoldl_inv _ (fun (st : DsDiff × List Fld) => st.2.Sublist val) ?_ _ (dd, val)
      (dd1, val1) (List.Sublist.refl val) hfold
    · exact this
    · intro s a s' hP hstep
      simp only at hstep
      split at hstep
      · cases hstep
      rename_i v' he
      split at hstep
      · cases hstep
      cases hstep
      exact (pyErase_sublist _ _ _ _ he).trans hP
  split at h
  · cases h
  cases h
  exact hsub

theorem procEntry_shrunk (nm : String) (dsBase : DSRec) (dsName : DsVal) (key : String)
    (val : DsVal) (dd dd' : DsDiff) (v' : DsVal)
    (h : procEntry nm dsBase dsName key val dd = .ok (dd', v')) :
    valShrunk (key, v') (key, val) := by
  refine ⟨rfl, ?_⟩
  unfold procEntry at h
  split at h
  · -- SubtypeInfo branch
    split at h
    · cases h
    split at h
    · split at h
      · cases h
      cases h
      exact Or.inl rfl
    · cases h
  split at h
  · -- Subtypes branch
    split at h
    · cases h
    split at h
    · rename_i sb sv _hbv
      split at h
      · cases h
      rename_i dd2 sv2 hbr
      cases h
      exact Or.inr ⟨sv2, sv, rfl, rfl, subtypesBranch_shrinks _ _ _ _ _ _ hbr⟩
    · cases h
  split at h
  · -- Fields branch
    split at h
    · cases h
    split at h
    · rename_i fb fv _hbv
      split at h
      · cases h
      rename_i dd2 fv2 hbr
      cases h
      exact Or.inr ⟨fv2, fv, rfl, rfl, fieldsBranch_shrinks _ _ _ _ _ _ hbr⟩
    · cases h
  -- scalar branch
  split at h
  · cases h
  split at h
  · split at h
    · cases h
    cases h
    exact Or.inl rfl
  · cases h
    exact Or.inl rfl

theorem efoldl_inv_mem {σ α : Type} (f : σ → α → Except PyErr σ) (P : σ → Prop) :
    ∀ (l : List α), (∀ s a s', a ∈ l → P s → f s a = .ok s' → P s') →
      ∀ (s s' : σ), P s → efoldl f s l = .ok s' → P s' := by
  intro l
  induction l with
  | nil =>
    intro _ s s' hP h
    simp only [efoldl] at h
    cases h
    exact hP
  | cons a as ih =>
    intro hf s s' hP h
    simp only [efoldl] at h
    cases hfa : f s a with
    | error e => rw [hfa] at h; cases h
    | ok s1 =>
      rw [hfa] at h
      exact ih (fun s b s' hb => hf s b s' (List.mem_cons_of_mem a hb)) s1 s'
        (hf s a s1 (List.mem_cons_self a as) hP hfa) h

theorem valShrunk_refl (p : String × DsVal) : valShrunk p p := ⟨rfl, Or.inl rfl⟩

theorem recShrunk_refl (d : DSRec) : recShrunk d d :=
  List.forall₂_same.mpr (fun p _ => valShrunk_refl p)

theorem procDS_walk (nm : String) (dsBase : DSRec) (dsName : DsVal) :
    ∀ (entries : List (String × DsVal)) (dd : DsDiff) (acc pre : DSRec)
      (out : DsDiff × DSRec),
      List.Forall₂ valShrunk acc pre →
      efoldl (procDSStep nm dsBase dsName) (dd, acc) entries = .ok out →
      List.Forall₂ valShrunk out.2 (pre ++ entries) := by
  intro entries
  induction entries with
  | nil =>
    intro dd acc pre out hrel h
    simp only [efoldl] at h
    cases h
    simpa using hrel
  | cons kv rest ih =>
    intro dd acc pre out hrel h
    simp only [efoldl] at h
    cases hstep : procDSStep nm dsBase dsName (dd, acc) kv with
    | error e => rw [hstep] at h; cases h
    | ok st1 =>
      rw [hstep] at h
      unfold procDSStep at hstep
      split at hstep
      · cases hstep
      rename_i dd1 v1 hentry
      cases hstep
      have hval : valShrunk (kv.1, v1) kv := by
        have := procEntry_shrunk nm dsBase dsName kv.1 kv.2 dd dd1 v1 hentry
        simpa using this
      have hrel' : List.Forall₂ valShrunk (acc ++ [(kv.1, v1)]) (pre ++ [kv]) :=
        List.rel_append hrel (List.Forall₂.cons hval List.Forall₂.nil)
      have := ih dd1 (acc ++ [(kv.1, v1)]) (pre ++ [kv]) out hrel' h
      simpa using this

theorem procDS_shrunk (nm : String) (base : List DSRec) (ds : DSRec) (dd : DsDiff)
    (dd' : DsDiff) (out : DSRec) (h : procDS nm base ds dd = .ok (dd', out)) :
    recShrunk out ds := by
  unfold procDS at h
  split at h
  · cases h
  split at h
  · cases h
  split at h
  · cases h
  have := procDS_walk _ _ _ ds dd [] [] (dd', out) List.Forall₂.nil h
  simpa [recShrunk] using this

theorem updAt_forall2 (i : Nat) (ds' : DSRec) :
    ∀ (st testI : List (Nat × DSRec)),
      List.Forall₂ (fun q q0 => q.1 = q0.1 ∧ recShrunk q.2 q0.2) st testI →
      (∀ q0 ∈ testI, q0.1 = i → recShrunk ds' q0.2) →
      List.Forall₂ (fun q q0 => q.1 = q0.1 ∧ recShrunk q.2 q0.2) (updAt st i ds') testI := by
  intro st testI hrel
  induction hrel with
  | nil => intro _; exact List.Forall₂.nil
  | cons hqq0 hrest ih =>
    rename_i q q0 l l0
    intro hmem
    simp only [updAt, List.map]
    by_cases hq : q.1 = i
    · rw [if_pos hq]
      refine List.Forall₂.cons ⟨hqq0.1, ?_⟩ ?_
      · exact hmem q0 (List.mem_cons_self _ _) (by rw [← hqq0.1]; exact hq)
      · have := ih (fun q1 hq1 h1 => hmem q1 (List.mem_cons_of_mem _ hq1) h1)
        simpa [updAt] using this
    · rw [if_neg hq]
      refine List.Forall₂.cons hqq0 ?_
      have := ih (fun q1 hq1 h1 => hmem q1 (List.mem_cons_of_mem _ hq1) h1)
      simpa [updAt] using this

theorem enumL_ge {α : Type} :
    ∀ (l : List α) (n i : Nat) (a : α), (i, a) ∈ enumL n l → n ≤ i := by
  intro l
  induction l with
  | nil => intro n i a h; cases h
  | cons b bs ih =>
    intro n i a h
    simp only [enumL] at h
    rcases List.mem_cons.mp h with h' | h'
    · cases h'; exact Nat.le_refl _
    · exact Nat.le_of_succ_le (ih (n + 1) i a h')

theorem enumL_inj {α : Type} :
    ∀ (l : List α) (n i : Nat) (a b : α), (i, a) ∈ enumL n l → (i, b) ∈ enumL n l → a = b := by
  intro l
  induction l with
  | nil => intro n i a b h; cases h
  | cons c cs ih =>
    intro n i a b ha hb
    simp only [enumL] at ha hb
    rcases List.mem_cons.mp ha with ha' | ha' <;> rcases List.mem_cons.mp hb with hb' | hb'
    · cases ha'; cases hb'; rfl
    · cases ha'
      exact absurd (enumL_ge cs (n + 1) n b hb') (by omega)
    · cases hb'
      exact absurd (enumL_ge cs (n + 1) n a ha') (by omega)
    · exact ih (n + 1) i a b ha' hb'

theorem enumL_map_snd {α : Type} : ∀ (l : List α) (n : Nat), (enumL n l).map (·.2) = l := by
  intro l
  induction l with
  | nil => intro n; rfl
  | cons a as ih => intro n; simp only [enumL, List.map, ih]

theorem forall2_snd :
    ∀ {l1 l2 : List (Nat × DSRec)},
      List.Forall₂ (fun q q0 => q.1 = q0.1 ∧ recShrunk q.2 q0.2) l1 l2 →
      List.Forall₂ recShrunk (l1.map (·.2)) (l2.map (·.2)) := by
  intro l1 l2 h
  induction h with
  | nil => exact List.Forall₂.nil
  | cons hqq0 _ ih => exact List.Forall₂.cons hqq0.2 ih

/-- Claim C9 (amended): the differ does mutate the test collection, but
only by removals: for every run of `compare_datasets` the post-run test
collection is entrywise `recShrunk`-related to the original — same
records in the same positions, with the same keys in the same order,
every value unchanged except that a `Fields` or `Subtypes` list may
have lost elements (the `val.remove(...)` calls on additional fields
and subtypes).  The base collection is never written to by the source,
which the model reflects by never threading it. -/
theorem C9_only_removals :
    ∀ (base test : List DSRec) (nm : String) (r : List DSRec × DsDiff × List DSRec)
      (fin : List DSRec),
      compare_datasets_core base test nm = .ok (r, fin) →
      List.Forall₂ recShrunk fin test := by
  intro base test nm r fin h
  unfold compare_datasets_core at h
  by_cases hc : dsListEq base test = true
  · rw [hc] at h
    simp only [if_pos rfl] at h
    cases h
    exact List.forall₂_same.mpr (fun d _ => recShrunk_refl d)
  · rw [Bool.not_eq_true] at hc
    rw [hc] at h
    simp only [Bool.false_eq_true, if_neg, if_false] at h
    split at h
    · cases h
    split at h
    · cases h
    split at h
    · cases h
    rename_i dt hdt
    split at h
    · cases h
    rename_i dd finI hfold
    cases h
    have hsub : ∀ q ∈ dt, q ∈ enumL 0 test := by
      refine efoldl_inv _ (fun s => ∀ q ∈ s, q ∈ enumL 0 test) ?_ _ _ dt
        (fun q hq => List.mem_of_mem_filter hq) hdt
      intro s a s' hP hstep
      intro q hq
      exact hP q (pyEraseBy_subset _ _ _ _ hstep q hq)
    have hinv : List.Forall₂ (fun q q0 => q.1 = q0.1 ∧ recShrunk q.2 q0.2) finI (enumL 0 test) := by
      have := efoldl_inv_mem _
        (fun (st : DsDiff × List (Nat × DSRec)) =>
          List.Forall₂ (fun q q0 => q.1 = q0.1 ∧ recShrunk q.2 q0.2) st.2 (enumL 0 test))
        dt ?_ ([], enumL 0 test) (dd, finI)
        (List.forall₂_same.mpr (fun q _ => ⟨rfl, recShrunk_refl q.2⟩)) hfold
      · exact this
      · intro s p s' hp hP hstep
        simp only at hstep
        split at hstep
        · cases hstep
        rename_i dd1 ds' hproc
        cases hstep
        refine updAt_forall2 p.1 ds' s.2 (enumL 0 test) hP ?_
        intro q0 hq0 hq0i
        have hds : q0.2 = p.2 := by
          have hmem : (p.1, q0.2) ∈ enumL 0 test := by rw [← hq0i]; exact hq0
          have hmem2 : (p.1, p.2) ∈ enumL 0 test := hsub p hp
          exact enumL_inj test 0 p.1 q0.2 p.2 hmem hmem2
        rw [hds]
        exact procDS_shrunk nm base p.2 s.1 dd1 ds' hproc
    have := forall2_snd hinv
    rw [enumL_map_snd] at this
    exact this

/-- Claim C9 (counterexample): with a test record holding one
additional field, the post-run test collection differs from the
original — the additional field was removed from the record's `Fields`
list in place, so the normalized collection is not read-only under the
differ. -/
theorem C9_test_collection_mutated :
    compare_datasets_core [mkDsA [fldOid]] [mkDsA [fldOid, fldExtra]] "Feature Class" =
      .ok (([], [(.v (.s "A"), .l [("Additional field", .v (.s ""), .v (.s "extra"))])], []),
        [mkDsA [fldOid]]) ∧
    mkDsA [fldOid] ≠ mkDsA [fldOid, fldExtra] := ⟨rfl, by decide⟩

/-- Claim C9 (amended, witness): the shrink relation at the concrete
mutated run. -/
theorem C9_only_removals_witness :
    List.Forall₂ recShrunk [mkDsA [fldOid]] [mkDsA [fldOid, fldExtra]] :=
  C9_only_removals [mkDsA [fldOid]] [mkDsA [fldOid, fldExtra]] "Feature Class"
    ([], [(.v (.s "A"), .l [("Additional field", .v (.s ""), .v (.s "extra"))])], [])
    [mkDsA [fldOid]] rfl

/-! ## Claim C6: helper lemmas -/

theorem efoldl_append {σ α : Type} (f : σ → α → Except PyErr σ) :
    ∀ (l1 l2 : List α) (s : σ),
      efoldl f s (l1 ++ l2) =
        match efoldl f s l1 with
        | .error e => .error e
        | .ok s' => efoldl f s' l2 := by
  intro l1
  induction l1 with
  | nil => intro l2 s; rfl
  | cons a as ih =>
    intro l2 s
    simp only [List.cons_append, efoldl]
    cases f s a with
    | error e => rfl
    | ok s1 => exact ih l2 s1

theorem alookup_dinsert_self {ν : Type} (k : String) (v : ν) :
    ∀ d : List (String × ν), alookup streq k (dinsert streq k v d) = some v := by
  intro d
  induction d with
  | nil => simp [dinsert, alookup, streq_refl]
  | cons q rest ih =>
    simp only [dinsert]
    by_cases hq : streq q.1 k = true
    · rw [if_pos hq]
      simp [alookup, hq]
    · rw [if_neg hq]
      simp [alookup, hq, ih]

theorem alookup_dinsert_ne {ν : Type} (k k' : String) (v : ν) (hne : k ≠ k') :
    ∀ d : List (String × ν), alookup streq k (dinsert streq k' v d) = alookup streq k d := by
  intro d
  induction d with
  | nil =>
    simp only [dinsert, alookup]
    rw [if_neg (by simp [streq]; exact fun h => hne h.symm)]
  | cons q rest ih =>
    simp only [dinsert]
    by_cases hq : streq q.1 k' = true
    · rw [if_pos hq]
      have hqk : streq q.1 k = false := by
        have : q.1 = k' := by simpa [streq] using hq
        simp [streq, this]
        exact fun h => hne h.symm
      simp [alookup, hqk]
    · rw [if_neg hq]
      simp only [alookup]
      by_cases hqk : streq q.1 k = true
      · simp [hqk]
      · simp [hqk, ih]

theorem ddelete_alookup_ne {ν : Type} (k k' : String) (hne : k ≠ k') :
    ∀ (d d' : List (String × ν)), ddelete streq k' d = .ok d' →
      alookup streq k d' = alookup streq k d := by
  intro d
  induction d with
  | nil => intro d' h; cases h
  | cons q rest ih =>
    intro d' h
    simp only [ddelete] at h
    by_cases hq : streq q.1 k' = true
    · rw [if_pos hq] at h
      cases h
      have hqk : streq q.1 k = false := by
        have : q.1 = k' := by simpa [streq] using hq
        simp [streq, this]
        exact fun h => hne h.symm
      simp [alookup, hqk]
    · rw [if_neg hq] at h
      cases he : ddelete streq k' rest with
      | error e => rw [he] at h; cases h
      | ok rest' =>
        rw [he] at h
        cases h
        simp only [alookup]
        by_cases hqk : streq q.1 k = true
        · simp [hqk]
        · simp [hqk, ih rest' he]

theorem foldl_domain_preserves_name :
    ∀ (cs : List XTree) (a : Fld),
      alookup streq "Name" (List.foldl (fun a dc =>
        if dc.tag = "DomainName" then dinsert streq "Domain" (ofText dc.text) a else a) a cs) =
      alookup streq "Name" a := by
  intro cs
  induction cs with
  | nil => intro a; rfl
  | cons dc rest ih =>
    intro a
    simp only [List.foldl]
    by_cases hdc : dc.tag = "DomainName"
    · rw [if_pos hdc, ih, alookup_dinsert_ne "Name" "Domain" _ (by decide)]
    · rw [if_neg hdc, ih]

-- a parse step away from Name does not change the Name entry
theorem parseFieldStep_preserves_name (iA : Bool) (c : XTree) (hne : c.tag ≠ "Name") :
    ∀ (acc acc' : Fld), parseFieldStep iA acc c = .ok acc' →
      alookup streq "Name" acc' = alookup streq "Name" acc := by
  intro acc acc' h
  unfold parseFieldStep at h
  have hdom : ∀ a : Fld, alookup streq "Name" (dinsert streq "Domain" (PyV.s "") a) =
      alookup streq "Name" a := fun a => alookup_dinsert_ne "Name" "Domain" _ (by decide) a
  by_cases h8 : c.tag = "Type" ∨ c.tag = "IsNullable" ∨ c.tag = "Length" ∨
      c.tag = "Precision" ∨ c.tag = "Scale" ∨ c.tag = "Required" ∨ c.tag = "Editable" ∨
      c.tag = "DefaultValue"
  · rw [if_pos h8] at h
    cases h
    rcases h8 with h' | h' | h' | h' | h' | h' | h' | h' <;>
      rw [alookup_dinsert_ne "Name" c.tag _ (by rw [h']; decide), hdom]
  · rw [if_neg h8] at h
    rw [if_neg hne] at h
    by_cases hA : c.tag = "AliasName"
    · rw [if_pos hA] at h
      cases hiA : !iA
      · rw [hiA] at h
        simp only [Bool.false_eq_true, if_neg, if_false] at h
        cases h
        exact hdom acc
      · rw [hiA] at h
        simp only [if_pos rfl] at h
        cases h
        rw [alookup_dinsert_ne "Name" "AliasName" _ (by decide), hdom]
    · rw [if_neg hA] at h
      by_cases hD : c.tag = "Domain"
      · rw [if_pos hD] at h
        cases h
        rw [foldl_domain_preserves_name, hdom]
      · rw [if_neg hD] at h
        cases h
        exact hdom acc

theorem efoldl_preserves_name (iA : Bool) :
    ∀ (cs : List XTree), (∀ c ∈ cs, c.tag ≠ "Name") →
      ∀ (acc acc' : Fld), efoldl (parseFieldStep iA) acc cs = .ok acc' →
        alookup streq "Name" acc' = alookup streq "Name" acc := by
  intro cs
  induction cs with
  | nil =>
    intro _ acc acc' h
    cases h
    rfl
  | cons c rest ih =>
    intro hcs acc acc' h
    simp only [efoldl] at h
    cases hstep : parseFieldStep iA acc c with
    | error e => rw [hstep] at h; cases h
    | ok acc1 =>
      rw [hstep] at h
      rw [ih (fun d hd => hcs d (List.mem_cons_of_mem c hd)) acc1 acc' h]
      exact parseFieldStep_preserves_name iA c (hcs c (List.mem_cons_self c rest)) acc acc1 hstep

-- part (a): the parsed Name is the lowercased text of the last Name child
theorem parseField_name_lowercased (iA iL : Bool) (pre post : List XTree)
    (t : String) (nc : List XTree) (r : Fld)
    (hpost : ∀ c ∈ post, c.tag ≠ "Name")
    (h : parseField iA iL (pre ++ XTree.node "Name" (Option.some t) nc :: post) = .ok r) :
    alookup streq "Name" r = some (.s (pyLower t)) := by
  unfold parseField at h
  cases hfold : efoldl (parseFieldStep iA) [] (pre ++ XTree.node "Name" (Option.some t) nc :: post) with
  | error e => rw [hfold] at h; cases h
  | ok d =>
    rw [hfold] at h
    dsimp only at h
    have hd : alookup streq "Name" d = some (.s (pyLower t)) := by
      rw [efoldl_append] at hfold
      cases hpre : efoldl (parseFieldStep iA) [] pre with
      | error e => rw [hpre] at hfold; cases hfold
      | ok acc0 =>
        rw [hpre] at hfold
        simp only [efoldl] at hfold
        cases hstep : parseFieldStep iA acc0 (XTree.node "Name" (Option.some t) nc) with
        | error e => rw [hstep] at hfold; cases hfold
        | ok acc1 =>
          rw [hstep] at hfold
          have hacc1 : alookup streq "Name" acc1 = some (.s (pyLower t)) := by
            have hname : parseFieldStep iA acc0 (XTree.node "Name" (Option.some t) nc) =
                .ok (dinsert streq "Name" (.s (pyLower t)) (dinsert streq "Domain" (.s "") acc0)) := rfl
            rw [hname] at hstep
            cases hstep
            exact alookup_dinsert_self "Name" _ _
          rw [efoldl_preserves_name iA post hpost acc1 d hfold]
          exact hacc1
    -- the post-processing (Type lookup and possible Length delete) keeps Name
    cases hty : alookup streq "Type" d with
    | none => rw [hty] at h; cases h
    | some tv =>
      rw [hty] at h
      dsimp only at h
      by_cases hcond : (!pveq tv (.s "esriFieldTypeString") && iL) = true
      · rw [hcond] at h
        simp only [if_pos rfl] at h
        rw [ddelete_alookup_ne "Name" "Length" (by decide) d r h]
        exact hd
      · rw [Bool.not_eq_true] at hcond
        rw [hcond] at h
        simp only [Bool.false_eq_true, if_neg, if_false] at h
        cases h
        exact hd

-- part (b): with full name coverage the fields branch is exactly the
-- pairwise comparison and leaves the list unchanged
theorem fieldsBranch_same_names (dsName : DsVal) (fb val : List Fld) (dd : DsDiff)
    (nb nt : List PyV)
    (hnb : emapM (fun f => dgetS f "Name") fb = .ok nb)
    (hnt : emapM (fun f => dgetS f "Name") val = .ok nt)
    (hcov1 : ∀ n ∈ nb, nt.any (fun m => pveq n m) = true)
    (hcov2 : ∀ n ∈ nt, nb.any (fun m => pveq n m) = true) :
    fieldsBranch dsName fb val dd =
      match pairwiseLoop dsName fb val dd with
      | .error e => .error e
      | .ok dd3 => .ok (dd3, val) := by
  unfold fieldsBranch
  rw [hnt, hnb]
  dsimp only
  have hmiss : (fb.zip nb).filter (fun p => !(nt.any (fun n => pveq p.2 n))) = [] := by
    rw [List.filter_eq_nil_iff]
    intro p hp
    have := hcov1 p.2 (List.of_mem_zip hp).2
    simp [this]
  have hadd : (val.zip nt).filter (fun p => !(nb.any (fun n => pveq p.2 n))) = [] := by
    rw [List.filter_eq_nil_iff]
    intro p hp
    have := hcov2 p.2 (List.of_mem_zip hp).2
    simp [this]
  rw [hmiss, hadd]
  simp only [efoldl]

/-! ## Claim C6 -/

/-- Claim C6: field-name case-insensitivity.  First conjunct: the
parser lowercases field names — for any `Field` element whose last
`Name` child has text `t`, the parsed record's `Name` is `t.lower()`,
so `OWNER` in base and `owner` in test normalize to the same name.
Second conjunct: when every (normalized) field name of base occurs
among the test names and vice versa, the `Fields` branch adds no
`Missing field`/`Additional field` triple and removes nothing — it is
exactly the pairwise property comparison of the common fields. -/
theorem C6_field_case_insensitive :
    (∀ (iA iL : Bool) (pre post : List XTree) (t : String) (nc : List XTree) (r : Fld),
      (∀ c ∈ post, c.tag ≠ "Name") →
      parseField iA iL (pre ++ XTree.node "Name" (Option.some t) nc :: post) = .ok r →
      alookup streq "Name" r = some (.s (pyLower t))) ∧
    (∀ (dsName : DsVal) (fb val : List Fld) (dd : DsDiff) (nb nt : List PyV),
      emapM (fun f => dgetS f "Name") fb = .ok nb →
      emapM (fun f => dgetS f "Name") val = .ok nt →
      (∀ n ∈ nb, nt.any (fun m => pveq n m) = true) →
      (∀ n ∈ nt, nb.any (fun m => pveq n m) = true) →
      fieldsBranch dsName fb val dd =
        match pairwiseLoop dsName fb val dd with
        | .error e => .error e
        | .ok dd3 => .ok (dd3, val)) :=
  ⟨parseField_name_lowercased,
   fun dsName fb val dd nb nt hnb hnt h1 h2 =>
     fieldsBranch_same_names dsName fb val dd nb nt hnb hnt h1 h2⟩

/-- Claim C6 (witness): parsing a field element named `OWNER` yields
the name `owner`, and the fields branch on two same-named fields is
the bare pairwise comparison. -/
theorem C6_field_case_insensitive_witness :
    alookup streq "Name"
        [("Domain", PyV.s ""), ("Type", PyV.s "esriFieldTypeString"),
         ("Name", PyV.s "owner"), ("AliasName", PyV.s "Owner")] = some (PyV.s "owner") ∧
    fieldsBranch (.v (.s "A")) [[("Name", PyV.s "owner"), ("Type", PyV.s "esriFieldTypeString")]]
        [[("Name", PyV.s "owner"), ("Type", PyV.s "esriFieldTypeInteger")]] [] =
      match pairwiseLoop (.v (.s "A"))
          [[("Name", PyV.s "owner"), ("Type", PyV.s "esriFieldTypeString")]]
          [[("Name", PyV.s "owner"), ("Type", PyV.s "esriFieldTypeInteger")]] [] with
      | .error e => .error e
      | .ok dd3 => .ok (dd3, [[("Name", PyV.s "owner"), ("Type", PyV.s "esriFieldTypeInteger")]]) :=
  ⟨C6_field_case_insensitive.1 false false [XTree.node "Type" (Option.some "esriFieldTypeString") []]
      [XTree.node "AliasName" (Option.some "Owner") []] "OWNER" [] _
      (by intro c hc; rw [List.mem_singleton.mp hc]; decide) rfl,
   C6_field_case_insensitive.2 (.v (.s "A"))
      [[("Name", PyV.s "owner"), ("Type", PyV.s "esriFieldTypeString")]]
      [[("Name", PyV.s "owner"), ("Type", PyV.s "esriFieldTypeInteger")]] []
      [PyV.s "owner"] [PyV.s "owner"] rfl rfl (by decide) (by decide)⟩

/-! ## Claim C7: helper lemmas -/

-- generic lookup lemmas
theorem alookup_mem {κ ν : Type} (keq : κ → κ → Bool) (k : κ) :
    ∀ (d : List (κ × ν)) (v : ν), alookup keq k d = some v → ∃ k', (k', v) ∈ d := by
  intro d
  induction d with
  | nil => intro v h; cases h
  | cons q rest ih =>
    intro v h
    simp only [alookup] at h
    by_cases hq : keq q.1 k = true
    · rw [if_pos hq] at h
      cases h
      exact ⟨q.1, List.mem_cons_self q rest⟩
    · rw [if_neg hq] at h
      obtain ⟨k', hk'⟩ := ih v h
      exact ⟨k', List.mem_cons_of_mem q hk'⟩

theorem dinsert_eq_append_of_not_found {κ ν : Type} (keq : κ → κ → Bool) (k : κ) (v : ν) :
    ∀ d : List (κ × ν), alookup keq k d = none → dinsert keq k v d = d ++ [(k, v)] := by
  intro d
  induction d with
  | nil => intro _; rfl
  | cons q rest ih =>
    intro h
    simp only [alookup] at h
    by_cases hq : keq q.1 k = true
    · rw [if_pos hq] at h; cases h
    · rw [if_neg hq] at h
      simp only [dinsert, if_neg hq, List.cons_append, ih h]

-- diffAddOrCreate: soundness, monotonicity, and the added triple
theorem dinsert_mem_self {κ ν : Type} (keq : κ → κ → Bool) (k : κ) (v : ν) :
    ∀ d : List (κ × ν), ∃ k', (k', v) ∈ dinsert keq k v d := by
  intro d
  induction d with
  | nil => exact ⟨k, List.mem_singleton.mpr rfl⟩
  | cons q rest ih =>
    simp only [dinsert]
    by_cases hq : keq q.1 k = true
    · rw [if_pos hq]
      exact ⟨q.1, List.mem_cons_self _ _⟩
    · rw [if_neg hq]
      obtain ⟨k', hk'⟩ := ih
      exact ⟨k', List.mem_cons_of_mem q hk'⟩

theorem addOrCreate_sound (dd : DsDiff) (k : DsVal) (tr : DsTriple) (b : Bool) (dd' : DsDiff)
    (h : diffAddOrCreate dd k tr b = .ok dd') :
    ∀ t, tripleInDiff dd' t → tripleInDiff dd t ∨ t = tr := by
  intro t ht
  unfold diffAddOrCreate at h
  split at h
  · rename_i ts hts
    cases h
    obtain ⟨e, he, hte⟩ := ht
    rcases mem_dinsert _ _ _ _ _ he with h' | h'
    · exact Or.inl ⟨e, h', hte⟩
    · rw [h'] at hte
      simp only [trsOf] at hte
      rcases List.mem_append.mp hte with h'' | h''
      · obtain ⟨k', hk'⟩ := alookup_mem dsvEq k dd (.l ts) hts
        exact Or.inl ⟨(k', .l ts), hk', h''⟩
      · exact Or.inr (List.mem_singleton.mp h'')
  · cases h
  · rename_i hnone
    cases h
    obtain ⟨e, he, hte⟩ := ht
    rw [dinsert_eq_append_of_not_found dsvEq k _ dd hnone] at he
    rcases List.mem_append.mp he with h' | h'
    · exact Or.inl ⟨e, h', hte⟩
    · rw [List.mem_singleton.mp h'] at hte
      cases b <;> simp only [trsOf] at hte
      · exact Or.inr (List.mem_singleton.mp hte)
      · exact Or.inr (List.mem_singleton.mp hte)

theorem dinsert_list_mono (k : DsVal) (ts : List DsTriple) (tr : DsTriple) :
    ∀ (dd : DsDiff) (t : DsTriple), alookup dsvEq k dd = some (.l ts) →
      tripleInDiff dd t → tripleInDiff (dinsert dsvEq k (.l (ts ++ [tr])) dd) t := by
  intro dd
  induction dd with
  | nil => intro t h; cases h
  | cons q rest ih =>
    intro t hl ht
    obtain ⟨qk, qv⟩ := q
    simp only [alookup] at hl
    simp only [dinsert]
    by_cases hq : dsvEq qk k = true
    · rw [if_pos hq] at hl ⊢
      simp only [Option.some.injEq] at hl
      subst hl
      obtain ⟨e, he, hte⟩ := ht
      rcases List.mem_cons.mp he with h' | h'
      · refine ⟨(qk, .l (ts ++ [tr])), List.mem_cons_self _ _, ?_⟩
        rw [h'] at hte
        simp only [trsOf] at hte ⊢
        exact List.mem_append.mpr (Or.inl hte)
      · exact ⟨e, List.mem_cons_of_mem _ h', hte⟩
    · rw [if_neg hq] at hl ⊢
      obtain ⟨e, he, hte⟩ := ht
      rcases List.mem_cons.mp he with h' | h'
      · exact ⟨(qk, qv), List.mem_cons_self _ _, h' ▸ hte⟩
      · obtain ⟨e', he', hte'⟩ := ih t hl ⟨e, h', hte⟩
        exact ⟨e', List.mem_cons_of_mem _ he', hte'⟩

theorem addOrCreate_mono (dd : DsDiff) (k : DsVal) (tr : DsTriple) (b : Bool) (dd' : DsDiff)
    (h : diffAddOrCreate dd k tr b = .ok dd') :
    ∀ t, tripleInDiff dd t → tripleInDiff dd' t := by
  intro t ht
  unfold diffAddOrCreate at h
  split at h
  · rename_i ts hts
    cases h
    exact dinsert_list_mono k ts tr dd t hts ht
  · cases h
  · rename_i hnone
    cases h
    obtain ⟨e, he, hte⟩ := ht
    rw [dinsert_eq_append_of_not_found dsvEq k _ dd hnone]
    exact ⟨e, List.mem_append.mpr (Or.inl he), hte⟩

theorem addOrCreate_adds (dd : DsDiff) (k : DsVal) (tr : DsTriple) (b : Bool) (dd' : DsDiff)
    (h : diffAddOrCreate dd k tr b = .ok dd') : tripleInDiff dd' tr := by
  unfold diffAddOrCreate at h
  split at h
  · rename_i ts _
    cases h
    obtain ⟨k', hk'⟩ := dinsert_mem_self dsvEq k (DiffVal.l (ts ++ [tr])) dd
    exact ⟨(k', .l (ts ++ [tr])), hk', by simp [trsOf]⟩
  · cases h
  · rename_i hnone
    cases h
    rw [dinsert_eq_append_of_not_found dsvEq k _ dd hnone]
    refine ⟨(k, if b then .l [tr] else .t tr), List.mem_append.mpr (Or.inr (List.mem_singleton.mpr rfl)), ?_⟩
    cases b <;> simp [trsOf]

theorem efoldl_sound {σ α β : Type} (f : σ → α → Except PyErr σ) (T : σ → β → Prop)
    (N : α → β → Prop)
    (hstep : ∀ s a s', f s a = .ok s' → ∀ t, T s' t → T s t ∨ N a t) :
    ∀ (l : List α) (s s' : σ), efoldl f s l = .ok s' →
      ∀ t, T s' t → T s t ∨ ∃ a ∈ l, N a t := by
  intro l
  induction l with
  | nil =>
    intro s s' h t ht
    cases h
    exact Or.inl ht
  | cons a as ih =>
    intro s s' h t ht
    simp only [efoldl] at h
    cases hfa : f s a with
    | error e => rw [hfa] at h; cases h
    | ok s1 =>
      rw [hfa] at h
      rcases ih s1 s' h t ht with h1 | ⟨b, hb, hN⟩
      · rcases hstep s a s1 hfa t h1 with h2 | h2
        · exact Or.inl h2
        · exact Or.inr ⟨a, List.mem_cons_self a as, h2⟩
      · exact Or.inr ⟨b, List.mem_cons_of_mem a hb, hN⟩

theorem efoldl_mono {σ α β : Type} (f : σ → α → Except PyErr σ) (T : σ → β → Prop)
    (hmono : ∀ s a s', f s a = .ok s' → ∀ t, T s t → T s' t) :
    ∀ (l : List α) (s s' : σ), efoldl f s l = .ok s' → ∀ t, T s t → T s' t := by
  intro l s s' h t ht
  exact efoldl_inv f (fun s => T s t) (fun s a s' hP hf => hmono s a s' hf t hP) l s s' ht h

theorem efoldl_complete {σ α β : Type} (f : σ → α → Except PyErr σ) (T : σ → β → Prop)
    (hmono : ∀ s a s', f s a = .ok s' → ∀ t, T s t → T s' t) (tgt : β) :
    ∀ (l : List α) (s s' : σ) (a : α), a ∈ l → efoldl f s l = .ok s' →
      (∀ s0 s1, f s0 a = .ok s1 → T s1 tgt) → T s' tgt := by
  intro l
  induction l with
  | nil => intro s s' a ha; cases ha
  | cons b bs ih =>
    intro s s' a ha h hest
    simp only [efoldl] at h
    cases hfb : f s b with
    | error e => rw [hfb] at h; cases h
    | ok s1 =>
      rw [hfb] at h
      rcases List.mem_cons.mp ha with h' | h'
      · exact efoldl_mono f T hmono bs s1 s' h tgt (hest s s1 (h' ▸ hfb))
      · exact ih s1 s' a h' h hest

-- level 1: the innermost loop over the test record's items
theorem pwInner_mono (dsName : DsVal) (fn : PyV) (fp : Fld) (bkv : String × PyV)
    (dd dd' : DsDiff) (h : pwInner dsName fn fp bkv dd = .ok dd') :
    ∀ t, tripleInDiff dd t → tripleInDiff dd' t := by
  intro t ht
  unfold pwInner at h
  refine efoldl_mono _ (fun s t => tripleInDiff s t) ?_ fp dd dd' h t ht
  intro s a s' hf t ht
  split at hf
  · exact addOrCreate_mono s dsName _ true s' hf t ht
  · cases hf; exact ht

theorem pwInner_sound (dsName : DsVal) (fn : PyV) (fp : Fld) (bkv : String × PyV)
    (dd dd' : DsDiff) (h : pwInner dsName fn fp bkv dd = .ok dd') :
    ∀ t, tripleInDiff dd' t → tripleInDiff dd t ∨
      ∃ tkv ∈ fp, bkv.1 = tkv.1 ∧ pveq bkv.2 tkv.2 = false ∧
        t = mkFldTriple fn bkv.1 bkv.2 tkv.2 := by
  intro t ht
  unfold pwInner at h
  refine efoldl_sound _ (fun s t => tripleInDiff s t)
    (fun tkv t => bkv.1 = tkv.1 ∧ pveq bkv.2 tkv.2 = false ∧
      t = mkFldTriple fn bkv.1 bkv.2 tkv.2) ?_ fp dd dd' h t ht
  intro s a s' hf t ht
  split at hf
  · rename_i hcond
    rcases addOrCreate_sound s dsName _ true s' hf t ht with h1 | h1
    · exact Or.inl h1
    · simp only [Bool.and_eq_true, decide_eq_true_eq, Bool.not_eq_true'] at hcond
      exact Or.inr ⟨hcond.1, hcond.2, h1⟩
  · cases hf; exact Or.inl ht

theorem pwInner_complete (dsName : DsVal) (fn : PyV) (fp : Fld) (bkv : String × PyV)
    (dd dd' : DsDiff) (h : pwInner dsName fn fp bkv dd = .ok dd')
    (tv : PyV) (hmem : (bkv.1, tv) ∈ fp) (hne : pveq bkv.2 tv = false) :
    tripleInDiff dd' (mkFldTriple fn bkv.1 bkv.2 tv) := by
  unfold pwInner at h
  refine efoldl_complete _ (fun s t => tripleInDiff s t) ?_ _ fp dd dd' (bkv.1, tv) hmem h ?_
  · intro s a s' hf t ht
    split at hf
    · exact addOrCreate_mono s dsName _ true s' hf t ht
    · cases hf; exact ht
  · intro s0 s1 hf
    simp only at hf
    rw [if_pos (by simp [hne])] at hf
    exact addOrCreate_adds s0 dsName _ true s1 hf

-- level 2: the loop over the base record's items
theorem pwBaseFld_mono (dsName : DsVal) (fn : PyV) (g fp : Fld) (dd dd' : DsDiff)
    (h : pwBaseFld dsName fn g fp dd = .ok dd') :
    ∀ t, tripleInDiff dd t → tripleInDiff dd' t := by
  intro t ht
  unfold pwBaseFld at h
  refine efoldl_mono _ (fun s t => tripleInDiff s t) ?_ g dd dd' h t ht
  intro s a s' hf t ht
  exact pwInner_mono dsName fn fp a s s' hf t ht

theorem pwBaseFld_sound (dsName : DsVal) (fn : PyV) (g fp : Fld) (dd dd' : DsDiff)
    (h : pwBaseFld dsName fn g fp dd = .ok dd') :
    ∀ t, tripleInDiff dd' t → tripleInDiff dd t ∨
      ∃ bkv ∈ g, ∃ tkv ∈ fp, bkv.1 = tkv.1 ∧ pveq bkv.2 tkv.2 = false ∧
        t = mkFldTriple fn bkv.1 bkv.2 tkv.2 := by
  intro t ht
  unfold pwBaseFld at h
  refine efoldl_sound _ (fun s t => tripleInDiff s t)
    (fun bkv t => ∃ tkv ∈ fp, bkv.1 = tkv.1 ∧ pveq bkv.2 tkv.2 = false ∧
      t = mkFldTriple fn bkv.1 bkv.2 tkv.2) ?_ g dd dd' h t ht
  intro s a s' hf t ht
  exact pwInner_sound dsName fn fp a s s' hf t ht

theorem pwBaseFld_complete (dsName : DsVal) (fn : PyV) (g fp : Fld) (dd dd' : DsDiff)
    (h : pwBaseFld dsName fn g fp dd = .ok dd')
    (bk : String) (bv tv : PyV) (hgmem : (bk, bv) ∈ g) (hfmem : (bk, tv) ∈ fp)
    (hne : pveq bv tv = false) :
    tripleInDiff dd' (mkFldTriple fn bk bv tv) := by
  unfold pwBaseFld at h
  refine efoldl_complete _ (fun s t => tripleInDiff s t) ?_ _ g dd dd' (bk, bv) hgmem h ?_
  · intro s a s' hf t ht
    exact pwInner_mono dsName fn fp a s s' hf t ht
  · intro s0 s1 hf
    exact pwInner_complete dsName fn fp (bk, bv) s0 s1 hf tv hfmem hne

-- level 3: the loop over the base field list for one test field
theorem pwPerFld_mono (dsName : DsVal) (fbList : List Fld) (fp : Fld) (dd dd' : DsDiff)
    (h : pwPerFld dsName fbList fp dd = .ok dd') :
    ∀ t, tripleInDiff dd t → tripleInDiff dd' t := by
  intro t ht
  unfold pwPerFld at h
  split at h
  · cases h
  refine efoldl_mono _ (fun s t => tripleInDiff s t) ?_ fbList dd dd' h t ht
  intro s a s' hf t ht
  split at hf
  · cases hf
  split at hf
  · exact pwBaseFld_mono dsName _ a fp s s' hf t ht
  · cases hf; exact ht

theorem pwPerFld_sound (dsName : DsVal) (fbList : List Fld) (fp : Fld) (dd dd' : DsDiff)
    (h : pwPerFld dsName fbList fp dd = .ok dd') :
    ∀ t, tripleInDiff dd' t → tripleInDiff dd t ∨
      ∃ g ∈ fbList, ∃ n gn, alookup streq "Name" fp = some n ∧
        alookup streq "Name" g = some gn ∧ pveq gn n = true ∧
        ∃ bkv ∈ g, ∃ tkv ∈ fp, bkv.1 = tkv.1 ∧ pveq bkv.2 tkv.2 = false ∧
          t = mkFldTriple n bkv.1 bkv.2 tkv.2 := by
  intro t ht
  unfold pwPerFld at h
  cases hn : dgetS fp "Name" with
  | error e => rw [hn] at h; cases h
  | ok fn =>
    rw [hn] at h
    dsimp only at h
    have hn' : alookup streq "Name" fp = some fn := by
      unfold dgetS at hn
      split at hn
      · cases hn
      · rename_i v hv; cases hn; exact hv
    refine efoldl_sound _ (fun s t => tripleInDiff s t)
      (fun g t => ∃ n gn, alookup streq "Name" fp = some n ∧
        alookup streq "Name" g = some gn ∧ pveq gn n = true ∧
        ∃ bkv ∈ g, ∃ tkv ∈ fp, bkv.1 = tkv.1 ∧ pveq bkv.2 tkv.2 = false ∧
          t = mkFldTriple n bkv.1 bkv.2 tkv.2) ?_ fbList dd dd' h t ht
    intro s a s' hf t ht
    cases hgn : dgetS a "Name" with
    | error e => rw [hgn] at hf; cases hf
    | ok gn =>
      rw [hgn] at hf
      dsimp only at hf
      have hgn' : alookup streq "Name" a = some gn := by
        unfold dgetS at hgn
        split at hgn
        · cases hgn
        · rename_i v hv; cases hgn; exact hv
      by_cases hg : pveq gn fn = true
      · rw [if_pos hg] at hf
        rcases pwBaseFld_sound dsName fn a fp s s' hf t ht with h1 | ⟨bkv, hb, rest⟩
        · exact Or.inl h1
        · exact Or.inr ⟨fn, gn, hn', hgn', hg, bkv, hb, rest⟩
      · rw [if_neg hg] at hf
        cases hf
        exact Or.inl ht

theorem pwPerFld_complete (dsName : DsVal) (fbList : List Fld) (fp : Fld) (dd dd' : DsDiff)
    (h : pwPerFld dsName fbList fp dd = .ok dd')
    (g : Fld) (n gn : PyV) (bk : String) (bv tv : PyV)
    (hg : g ∈ fbList) (hn : alookup streq "Name" fp = some n)
    (hgn : alookup streq "Name" g = some gn) (hmatch : pveq gn n = true)
    (hgmem : (bk, bv) ∈ g) (hfmem : (bk, tv) ∈ fp) (hne : pveq bv tv = false) :
    tripleInDiff dd' (mkFldTriple n bk bv tv) := by
  unfold pwPerFld at h
  have hdget : dgetS fp "Name" = .ok n := by
    unfold dgetS
    rw [hn]
  rw [hdget] at h
  dsimp only at h
  refine efoldl_complete _ (fun s t => tripleInDiff s t) ?_ _ fbList dd dd' g hg h ?_
  · intro s a s' hf t ht
    split at hf
    · cases hf
    split at hf
    · exact pwBaseFld_mono dsName _ a fp s s' hf t ht
    · cases hf; exact ht
  · intro s0 s1 hf
    have hdget2 : dgetS g "Name" = .ok gn := by
      unfold dgetS
      rw [hgn]
    rw [hdget2] at hf
    dsimp only at hf
    rw [if_pos hmatch] at hf
    exact pwBaseFld_complete dsName n g fp s0 s1 hf bk bv tv hgmem hfmem hne

-- level 4: the loop over the (post-removal) test field list
theorem pairwiseLoop_mono (dsName : DsVal) (fbList val : List Fld) (dd dd' : DsDiff)
    (h : pairwiseLoop dsName fbList val dd = .ok dd') :
    ∀ t, tripleInDiff dd t → tripleInDiff dd' t := by
  intro t ht
  unfold pairwiseLoop at h
  refine efoldl_mono _ (fun s t => tripleInDiff s t) ?_ val dd dd' h t ht
  intro s a s' hf t ht
  exact pwPerFld_mono dsName fbList a s s' hf t ht

theorem pairwiseLoop_sound (dsName : DsVal) (fbList val : List Fld) (dd dd' : DsDiff)
    (h : pairwiseLoop dsName fbList val dd = .ok dd') :
    ∀ t, tripleInDiff dd' t → tripleInDiff dd t ∨ pairProvenance fbList val t := by
  intro t ht
  unfold pairwiseLoop at h
  have := efoldl_sound _ (fun s t => tripleInDiff s t)
    (fun fp t => ∃ g ∈ fbList, ∃ n gn, alookup streq "Name" fp = some n ∧
      alookup streq "Name" g = some gn ∧ pveq gn n = true ∧
      ∃ bkv ∈ g, ∃ tkv ∈ fp, bkv.1 = tkv.1 ∧ pveq bkv.2 tkv.2 = false ∧
        t = mkFldTriple n bkv.1 bkv.2 tkv.2)
    (fun s a s' hf t ht => pwPerFld_sound dsName fbList a s s' hf t ht)
    val dd dd' h t ht
  rcases this with h1 | ⟨fp, hfp, g, hg, n, gn, hn, hgn, hm, bkv, hb, tkv, htk, hk, hnev, hteq⟩
  · exact Or.inl h1
  · refine Or.inr ⟨fp, hfp, g, hg, n, gn, bkv.1, bkv.2, tkv.2, hn, hgn, hm, ?_, ?_, hnev, hteq⟩
    · exact hb
    · rw [hk]
      simpa using htk

theorem pairwiseLoop_complete (dsName : DsVal) (fbList val : List Fld) (dd dd' : DsDiff)
    (h : pairwiseLoop dsName fbList val dd = .ok dd')
    (fp g : Fld) (n gn : PyV) (bk : String) (bv tv : PyV)
    (hfp : fp ∈ val) (hg : g ∈ fbList) (hn : alookup streq "Name" fp = some n)
    (hgn : alookup streq "Name" g = some gn) (hmatch : pveq gn n = true)
    (hgmem : (bk, bv) ∈ g) (hfmem : (bk, tv) ∈ fp) (hne : pveq bv tv = false) :
    tripleInDiff dd' (mkFldTriple n bk bv tv) := by
  unfold pairwiseLoop at h
  refine efoldl_complete _ (fun s t => tripleInDiff s t) ?_ _ val dd dd' fp hfp h ?_
  · intro s a s' hf t ht
    exact pwPerFld_mono dsName fbList a s s' hf t ht
  · intro s0 s1 hf
    exact pwPerFld_complete dsName fbList fp s0 s1 hf g n gn bk bv tv hg hn hgn hmatch
      hgmem hfmem hne

-- unique keys invariant for parsed field records
theorem alookup_eq_none_str {ν : Type} (k : String) :
    ∀ d : List (String × ν), (∀ q ∈ d, q.1 ≠ k) → alookup streq k d = none := by
  intro d
  induction d with
  | nil => intro _; rfl
  | cons q rest ih =>
    intro hq
    simp only [alookup]
    rw [if_neg (by simp [streq]; exact hq q (List.mem_cons_self q rest))]
    exact ih (fun p hp => hq p (List.mem_cons_of_mem q hp))

theorem mem_dinsert_pair {ν : Type} (k : String) (v : ν) :
    ∀ (d : List (String × ν)) (p : String × ν), p ∈ dinsert streq k v d → p ∈ d ∨ p.1 = k := by
  intro d
  induction d with
  | nil =>
    intro p hp
    rw [List.mem_singleton.mp hp]
    exact Or.inr rfl
  | cons q rest ih =>
    intro p hp
    simp only [dinsert] at hp
    by_cases hq : streq q.1 k = true
    · rw [if_pos hq] at hp
      rcases List.mem_cons.mp hp with h' | h'
      · rw [h']
        exact Or.inr (by simpa [streq] using hq)
      · exact Or.inl (List.mem_cons_of_mem q h')
    · rw [if_neg hq] at hp
      rcases List.mem_cons.mp hp with h' | h'
      · rw [h']; exact Or.inl (List.mem_cons_self q rest)
      · rcases ih p h' with h'' | h''
        · exact Or.inl (List.mem_cons_of_mem q h'')
        · exact Or.inr h''

theorem dinsert_ukeys {ν : Type} (k : String) (v : ν) :
    ∀ d : List (String × ν), d.Pairwise (fun p q => p.1 ≠ q.1) →
      (dinsert streq k v d).Pairwise (fun p q => p.1 ≠ q.1) := by
  intro d
  induction d with
  | nil => intro _; simp [dinsert]
  | cons q rest ih =>
    intro hp
    rw [List.pairwise_cons] at hp
    simp only [dinsert]
    by_cases hq : streq q.1 k = true
    · rw [if_pos hq]
      rw [List.pairwise_cons]
      exact ⟨hp.1, hp.2⟩
    · rw [if_neg hq]
      rw [List.pairwise_cons]
      constructor
      · intro p hpmem
        rcases mem_dinsert_pair k v rest p hpmem with h' | h'
        · exact hp.1 p h'
        · rw [h']
          simpa [streq] using hq
      · exact ih hp.2

theorem foldl_domain_ukeys :
    ∀ (cs : List XTree) (a : Fld), a.Pairwise (fun p q => p.1 ≠ q.1) →
      (List.foldl (fun a dc =>
        if dc.tag = "DomainName" then dinsert streq "Domain" (ofText dc.text) a else a) a cs).Pairwise
        (fun p q => p.1 ≠ q.1) := by
  intro cs
  induction cs with
  | nil => intro a ha; exact ha
  | cons dc rest ih =>
    intro a ha
    simp only [List.foldl]
    by_cases hdc : dc.tag = "DomainName"
    · rw [if_pos hdc]
      exact ih _ (dinsert_ukeys _ _ a ha)
    · rw [if_neg hdc]
      exact ih a ha

theorem parseFieldStep_ukeys (iA : Bool) (c : XTree) :
    ∀ (acc acc' : Fld), acc.Pairwise (fun p q => p.1 ≠ q.1) →
      parseFieldStep iA acc c = .ok acc' → acc'.Pairwise (fun p q => p.1 ≠ q.1) := by
  intro acc acc' ha h
  unfold parseFieldStep at h
  have h0 : (dinsert streq "Domain" (PyV.s "") acc).Pairwise (fun p q => p.1 ≠ q.1) :=
    dinsert_ukeys _ _ acc ha
  split at h
  · cases h; exact dinsert_ukeys _ _ _ h0
  split at h
  · split at h
    · cases h
    · cases h; exact dinsert_ukeys _ _ _ h0
  split at h
  · split at h
    · cases h; exact dinsert_ukeys _ _ _ h0
    · cases h; exact h0
  split at h
  · cases h; exact foldl_domain_ukeys _ _ h0
  · cases h; exact h0

theorem ddelete_lookup_none {ν : Type} (k : String) :
    ∀ (d d' : List (String × ν)), d.Pairwise (fun p q => p.1 ≠ q.1) →
      ddelete streq k d = .ok d' → alookup streq k d' = none := by
  intro d
  induction d with
  | nil => intro d' _ h; cases h
  | cons q rest ih =>
    intro d' hp h
    rw [List.pairwise_cons] at hp
    simp only [ddelete] at h
    by_cases hq : streq q.1 k = true
    · rw [if_pos hq] at h
      cases h
      refine alookup_eq_none_str k rest ?_
      intro p hpr
      have hqk : q.1 = k := by simpa [streq] using hq
      rw [← hqk]
      exact fun hpk => hp.1 p hpr hpk.symm
    · rw [if_neg hq] at h
      cases he : ddelete streq k rest with
      | error e => rw [he] at h; cases h
      | ok rest' =>
        rw [he] at h
        cases h
        simp only [alookup]
        rw [if_neg hq]
        exact ih rest' hp.2 he

-- part (i): with the flag set, a successfully parsed non-text field has no Length
theorem parseField_length_removed (iA : Bool) (cs : List XTree) (r : Fld) (tv : PyV)
    (h : parseField iA true cs = .ok r) (hty : alookup streq "Type" r = some tv)
    (hne : pveq tv (.s "esriFieldTypeString") = false) :
    alookup streq "Length" r = none := by
  unfold parseField at h
  cases hfold : efoldl (parseFieldStep iA) [] cs with
  | error e => rw [hfold] at h; cases h
  | ok d =>
    rw [hfold] at h
    dsimp only at h
    have hud : d.Pairwise (fun p q => (p : String × PyV).1 ≠ q.1) := by
      refine efoldl_inv (parseFieldStep iA) (fun s => s.Pairwise (fun p q => p.1 ≠ q.1))
        ?_ cs [] d (by simp) hfold
      intro s a s' hP hstep
      exact parseFieldStep_ukeys iA a s s' hP hstep
    cases hty0 : alookup streq "Type" d with
    | none => rw [hty0] at h; cases h
    | some tv0 =>
      rw [hty0] at h
      dsimp only at h
      by_cases hc : pveq tv0 (.s "esriFieldTypeString") = true
      · rw [show (!pveq tv0 (PyV.s "esriFieldTypeString") && true) = false by simp [hc]] at h
        simp only [Bool.false_eq_true, if_neg, if_false] at h
        cases h
        rw [hty0] at hty
        cases hty
        rw [hc] at hne
        cases hne
      · rw [show (!pveq tv0 (PyV.s "esriFieldTypeString") && true) = true by
          simp [Bool.not_eq_true] at hc; simp [hc]] at h
        simp only [if_pos rfl] at h
        exact ddelete_lookup_none "Length" d r hud h

/-! ## Claim C7 -/

/-- Claim C7: the ignore-non-text-length flag.  First conjunct: with the
flag set, every successfully parsed field record whose `Type` is not
the text type has no `Length` entry (the parser deletes it before the
record joins the comparison list).  Second conjunct (soundness): every
triple the pairwise field comparison adds has provenance — it stems
from a key present in both a base and a test field record with
differing values, so records without a `Length` key can never yield a
`Length` triple.  Third conjunct (completeness): for a common-named
field pair that does carry `Length` on both sides with differing
values — e.g. a text field, whose `Length` the parser keeps — the
`Length` mismatch triple is reported. -/
theorem C7_length_exclusion :
    (∀ (iA : Bool) (cs : List XTree) (r : Fld) (tv : PyV),
      parseField iA true cs = .ok r → alookup streq "Type" r = some tv →
      pveq tv (.s "esriFieldTypeString") = false →
      alookup streq "Length" r = none) ∧
    (∀ (dsName : DsVal) (fbList val : List Fld) (dd dd' : DsDiff),
      pairwiseLoop dsName fbList val dd = .ok dd' →
      ∀ t, tripleInDiff dd' t → tripleInDiff dd t ∨ pairProvenance fbList val t) ∧
    (∀ (dsName : DsVal) (fbList val : List Fld) (dd dd' : DsDiff) (fp g : Fld)
        (n gn bv tv : PyV),
      pairwiseLoop dsName fbList val dd = .ok dd' →
      fp ∈ val → g ∈ fbList → alookup streq "Name" fp = some n →
      alookup streq "Name" g = some gn → pveq gn n = true →
      ("Length", bv) ∈ g → ("Length", tv) ∈ fp → pveq bv tv = false →
      tripleInDiff dd' (mkFldTriple n "Length" bv tv)) :=
  ⟨parseField_length_removed,
   fun dsName fbList val dd dd' h => pairwiseLoop_sound dsName fbList val dd dd' h,
   fun dsName fbList val dd dd' fp g n gn bv tv h hfp hg hn hgn hm hb hf hne =>
     pairwiseLoop_complete dsName fbList val dd dd' h fp g n gn "Length" bv tv
       hfp hg hn hgn hm hb hf hne⟩

/-- Claim C7 (witness): a parsed integer field loses its `Length`; on a
text-field pair with differing `Length` the pairwise loop reports the
`Length` triple, and that triple has pairwise provenance. -/
theorem C7_length_exclusion_witness :
    alookup streq "Length"
        [("Domain", PyV.s ""), ("Name", PyV.s "speed"), ("Type", PyV.s "esriFieldTypeInteger")] =
      none ∧
    (tripleInDiff [] ("txt field has different values for Length", .v (.s "10"), .v (.s "20")) ∨
      pairProvenance [[("Name", PyV.s "txt"), ("Length", PyV.s "10")]]
        [[("Name", PyV.s "txt"), ("Length", PyV.s "20")]]
        ("txt field has different values for Length", .v (.s "10"), .v (.s "20"))) ∧
    tripleInDiff
      [(DsVal.v (PyV.s "A"),
        DiffVal.l [("txt field has different values for Length", .v (.s "10"), .v (.s "20"))])]
      ("txt field has different values for Length", .v (.s "10"), .v (.s "20")) :=
  ⟨C7_length_exclusion.1 false
      [XTree.node "Name" (Option.some "SPEED") [], XTree.node "Type" (Option.some "esriFieldTypeInteger") [],
       XTree.node "Length" (Option.some "4") []]
      [("Domain", PyV.s ""), ("Name", PyV.s "speed"), ("Type", PyV.s "esriFieldTypeInteger")]
      (PyV.s "esriFieldTypeInteger") rfl rfl rfl,
   C7_length_exclusion.2.1 (.v (.s "A")) [[("Name", PyV.s "txt"), ("Length", PyV.s "10")]]
      [[("Name", PyV.s "txt"), ("Length", PyV.s "20")]] []
      [(DsVal.v (PyV.s "A"),
        DiffVal.l [("txt field has different values for Length", .v (.s "10"), .v (.s "20"))])]
      rfl ("txt field has different values for Length", .v (.s "10"), .v (.s "20"))
      ⟨(DsVal.v (PyV.s "A"),
        DiffVal.l [("txt field has different values for Length", .v (.s "10"), .v (.s "20"))]),
        List.mem_singleton.mpr rfl, List.mem_singleton.mpr rfl⟩,
   C7_length_exclusion.2.2 (.v (.s "A")) [[("Name", PyV.s "txt"), ("Length", PyV.s "10")]]
      [[("Name", PyV.s "txt"), ("Length", PyV.s "20")]] []
      [(DsVal.v (PyV.s "A"),
        DiffVal.l [("txt field has different values for Length", .v (.s "10"), .v (.s "20"))])]
      [("Name", PyV.s "txt"), ("Length", PyV.s "20")]
      [("Name", PyV.s "txt"), ("Length", PyV.s "10")]
      (PyV.s "txt") (PyV.s "txt") (PyV.s "10") (PyV.s "20") rfl
      (List.mem_singleton.mpr rfl) (List.mem_singleton.mpr rfl) rfl rfl rfl
      (by decide) (by decide) rfl⟩

/-! ## Claim C8 -/

/-- Claim C8: a base collection holding feature class `Roads` whose
field `SPEED` carries domain `SpeedLimits`, against the test collection
holding the same class whose `SPEED` carries no domain, produces for
`Roads` exactly the mismatch triple
`("SPEED field has different values for Domain", "SpeedLimits", "")` -
for any remaining common field properties `rest` (entries other than
`Domain`/`Name`, functional as a dict). -/
theorem C8_speed_domain_triple (nm : String) (rest : Fld)
    (hk : ∀ p ∈ rest, p.1 ≠ "Domain" ∧ p.1 ≠ "Name")
    (hfun : ∀ p ∈ rest, ∀ q ∈ rest, p.1 = q.1 → p.2 = q.2) :
    compare_datasets [mkRoads (speedFldBase rest)] [mkRoads (speedFldTest rest)] nm =
      .ok ([], speedDiff, []) := by
  have hfT : speedFldTest rest = ("Domain", .s "") :: ("Name", .s "SPEED") :: rest := rfl
  have P1 : pwInner (DsVal.v (.s "Roads")) (.s "SPEED") (speedFldTest rest) ("Domain", .s "SpeedLimits") [] = .ok speedDiff :=
    Eq.trans
      (show pwInner (DsVal.v (.s "Roads")) (.s "SPEED") (speedFldTest rest) ("Domain", .s "SpeedLimits") [] =
        efoldl (fun dd tkv =>
          if ("Domain", PyV.s "SpeedLimits").1 = tkv.1 &&
              !pveq ("Domain", PyV.s "SpeedLimits").2 tkv.2 then
            diffAddOrCreate dd (DsVal.v (.s "Roads")) (mkFldTriple (.s "SPEED") ("Domain", PyV.s "SpeedLimits").1
              ("Domain", PyV.s "SpeedLimits").2 tkv.2) true
          else .ok dd) speedDiff rest from rfl)
      (efoldl_skip _ rest speedDiff (fun a ha => by
        simp [show ¬((("Domain", PyV.s "SpeedLimits") : String × PyV).1 = a.1) from
          fun hh => (hk a ha).1 hh.symm]))
  have P2 : pwInner (DsVal.v (.s "Roads")) (.s "SPEED") (speedFldTest rest) ("Name", .s "SPEED") speedDiff = .ok speedDiff := by
    refine efoldl_skip _ (speedFldTest rest) speedDiff ?_
    intro a ha
    rw [hfT] at ha
    rcases List.mem_cons.mp ha with h | h
    · subst h; rfl
    rcases List.mem_cons.mp h with h' | h'
    · subst h'; rfl
    · simp [show ¬((("Name", PyV.s "SPEED") : String × PyV).1 = a.1) from
        fun hh => (hk a h').2 hh.symm]
  have P3 : ∀ bkv ∈ rest, pwInner (DsVal.v (.s "Roads")) (.s "SPEED") (speedFldTest rest) bkv speedDiff = .ok speedDiff := by
    intro bkv hbkv
    refine efoldl_skip _ (speedFldTest rest) speedDiff ?_
    intro a ha
    rw [hfT] at ha
    rcases List.mem_cons.mp ha with h | h
    · subst h
      simp [show ¬(bkv.1 = (("Domain", PyV.s "") : String × PyV).1) from (hk bkv hbkv).1]
    rcases List.mem_cons.mp h with h' | h'
    · subst h'
      simp [show ¬(bkv.1 = (("Name", PyV.s "SPEED") : String × PyV).1) from (hk bkv hbkv).2]
    · by_cases he : bkv.1 = a.1
      · have hv : bkv.2 = a.2 := hfun bkv hbkv a h' he
        simp [pveq, hv]
      · simp [he]
  have P4 : pwBaseFld (DsVal.v (.s "Roads")) (.s "SPEED") (speedFldBase rest) (speedFldTest rest) [] = .ok speedDiff := by
    simp only [pwBaseFld, speedFldBase]
    rw [efoldl_cons_ok (fun dd bkv => pwInner (DsVal.v (.s "Roads")) (.s "SPEED") (speedFldTest rest) bkv dd) _ _ _ _ P1]
    rw [efoldl_cons_ok (fun dd bkv => pwInner (DsVal.v (.s "Roads")) (.s "SPEED") (speedFldTest rest) bkv dd) _ _ _ _ P2]
    exact efoldl_skip _ rest speedDiff P3
  have P5 : pwPerFld (DsVal.v (.s "Roads")) [(speedFldBase rest)] (speedFldTest rest) [] = .ok speedDiff := by
    simp only [pwPerFld]
    rw [show dgetS (speedFldTest rest) "Name" = Except.ok (PyV.s "SPEED") from rfl]
    dsimp only
    rw [efoldl_singleton]
    exact P4
  have P5b : pairwiseLoop (DsVal.v (.s "Roads")) [(speedFldBase rest)] [(speedFldTest rest)] [] = .ok speedDiff := by
    simp only [pairwiseLoop]
    rw [efoldl_singleton]
    exact P5
  have P6 : fieldsBranch (DsVal.v (.s "Roads")) [(speedFldBase rest)] [(speedFldTest rest)] [] = .ok (speedDiff, [(speedFldTest rest)]) := by
    have sh : fieldsBranch (DsVal.v (.s "Roads")) [(speedFldBase rest)] [(speedFldTest rest)] [] =
        (match pairwiseLoop (DsVal.v (.s "Roads")) [(speedFldBase rest)] [(speedFldTest rest)] [] with
          | Except.error e => Except.error e
          | Except.ok dd3 => Except.ok (dd3, [(speedFldTest rest)])) := rfl
    rw [sh, P5b]
  have e3 : procDSStep nm (mkRoads (speedFldBase rest)) (DsVal.v (.s "Roads"))
      (([], [("SubtypeFieldName", DsVal.v (.s "")), ("Name", DsVal.v (.s "Roads"))]) : DsDiff × DSRec)
      ("Fields", DsVal.lst [speedFldTest rest]) =
      .ok (speedDiff, [("SubtypeFieldName", DsVal.v (.s "")), ("Name", DsVal.v (.s "Roads")),
        ("Fields", DsVal.lst [speedFldTest rest])]) := by
    have sh : procDSStep nm (mkRoads (speedFldBase rest)) (DsVal.v (.s "Roads"))
        (([], [("SubtypeFieldName", DsVal.v (.s "")), ("Name", DsVal.v (.s "Roads"))]) : DsDiff × DSRec)
        ("Fields", DsVal.lst [speedFldTest rest]) =
        (match (match fieldsBranch (DsVal.v (.s "Roads")) [(speedFldBase rest)] [(speedFldTest rest)] [] with
            | Except.error e => Except.error e
            | Except.ok (dd', fv') => Except.ok (dd', DsVal.lst fv')) with
          | Except.error e => Except.error e
          | Except.ok (dd', v') => Except.ok (dd',
              ([("SubtypeFieldName", DsVal.v (.s "")), ("Name", DsVal.v (.s "Roads"))] : DSRec) ++
                [("Fields", v')])) := rfl
    rw [sh, P6]
    rfl
  have P7 : procDS nm [mkRoads (speedFldBase rest)] (mkRoads (speedFldTest rest)) [] = .ok (speedDiff, mkRoads (speedFldTest rest)) := by
    have sh : procDS nm [mkRoads (speedFldBase rest)] (mkRoads (speedFldTest rest)) [] =
        efoldl (procDSStep nm (mkRoads (speedFldBase rest)) (DsVal.v (.s "Roads"))) ([], [])
          [("SubtypeFieldName", DsVal.v (.s "")), ("Name", DsVal.v (.s "Roads")),
           ("Fields", DsVal.lst [speedFldTest rest]), ("Subtypes", DsVal.lst []),
           ("SubtypeInfo", DsVal.sinfo [(.s "", .s "")])] := rfl
    rw [sh]
    rw [efoldl_cons_ok _ _ (([], [("SubtypeFieldName", DsVal.v (.s ""))]) : DsDiff × DSRec) _ _ rfl]
    rw [efoldl_cons_ok _ _ (([], [("SubtypeFieldName", DsVal.v (.s "")), ("Name", DsVal.v (.s "Roads"))]) : DsDiff × DSRec) _ _ rfl]
    rw [efoldl_cons_ok _ _ _ _ _ e3]
    rw [efoldl_cons_ok _ _ ((speedDiff, [("SubtypeFieldName", DsVal.v (.s "")), ("Name", DsVal.v (.s "Roads")),
      ("Fields", DsVal.lst [speedFldTest rest]), ("Subtypes", DsVal.lst [])]) : DsDiff × DSRec) _ _ rfl]
    rw [efoldl_cons_ok _ _ ((speedDiff, [("SubtypeFieldName", DsVal.v (.s "")), ("Name", DsVal.v (.s "Roads")),
      ("Fields", DsVal.lst [speedFldTest rest]), ("Subtypes", DsVal.lst []),
      ("SubtypeInfo", DsVal.sinfo [(.s "", .s "")])]) : DsDiff × DSRec) _ _ rfl]
    rfl
  have core : compare_datasets_core [mkRoads (speedFldBase rest)] [mkRoads (speedFldTest rest)] nm =
      .ok (([], speedDiff, []), [mkRoads (speedFldTest rest)]) := by
    have sh : compare_datasets_core [mkRoads (speedFldBase rest)] [mkRoads (speedFldTest rest)] nm =
        (match efoldl (fun (st : DsDiff × List (Nat × DSRec)) (p : Nat × DSRec) =>
            match procDS nm [mkRoads (speedFldBase rest)] p.2 st.1 with
            | Except.error e => Except.error e
            | Except.ok (dd', ds') => Except.ok (dd', updAt st.2 p.1 ds'))
            ([], [(0, mkRoads (speedFldTest rest))]) [(0, mkRoads (speedFldTest rest))] with
          | Except.error e => Except.error e
          | Except.ok (dd, fin) => Except.ok (([], dd, []), fin.map (fun x => x.2))) := rfl
    rw [sh, efoldl_singleton]
    dsimp only
    rw [P7]
    rfl
  have wrap : compare_datasets [mkRoads (speedFldBase rest)] [mkRoads (speedFldTest rest)] nm =
      (match compare_datasets_core [mkRoads (speedFldBase rest)] [mkRoads (speedFldTest rest)] nm with
        | Except.error e => Except.error e
        | Except.ok (r, _) => Except.ok r) := rfl
  rw [wrap, core]

/-- Claim C8 (witness): the theorem evaluated with the concrete field
tail `[("Type", "esriFieldTypeInteger")]`. -/
theorem C8_speed_domain_triple_witness :
    compare_datasets [mkRoads (speedFldBase [("Type", PyV.s "esriFieldTypeInteger")])]
        [mkRoads (speedFldTest [("Type", PyV.s "esriFieldTypeInteger")])] "Feature Class" =
      .ok ([], speedDiff, []) :=
  C8_speed_domain_triple "Feature Class" [("Type", PyV.s "esriFieldTypeInteger")]
    (by decide) (by decide)


end GDB
